import Mathlib

/-!
Verification development for the repository's data-transformation scripts:

* `apps/web/supabase/scripts/ip-to-location/convert-ip-data.py`
  (IP-range → CIDR conversion and partitioned CSV emission),
* `apps/cli/scripts/reset-add-toc.py` (per-article JSON state reset),
* `supabase/scripts/ip-to-bot/convert-ips.py` (bot IP-range → CSV).

The Python scripts are shallowly embedded: pure functions become Lean
functions, the per-record loops become explicit recursions over lists of
records, Python exceptions become `Except`, machine-independent Python
integers become `Nat`, and Python strings become Lean `String`
(operated on through their character lists, so that everything evaluates
by kernel reduction).  Calls into CPython's `ipaddress` standard library
(`ip_address`, `summarize_address_range`, `ip_network`) are embedded from
that library's source, since the scripts' behaviour is defined by it.

Recursive functions are written with an explicit structural fuel argument
(always instantiated with a provably sufficient bound) so that concrete
runs reduce inside the kernel.
-/

namespace Aicw

/-- The Python exceptions that can escape the scripts' own handlers. -/
inductive PyExc
  /-- `TypeError`, e.g. from `summarize_address_range` on mixed families. -/
  | typeError
  /-- `AttributeError`, e.g. `None.upper()`. -/
  | attributeError
deriving DecidableEq, Repr

instance {ε α : Type} [DecidableEq ε] [DecidableEq α] : DecidableEq (Except ε α) := fun a b =>
  match a, b with
  | .ok x, .ok y =>
      if h : x = y then .isTrue (by rw [h]) else .isFalse (by intro hc; cases hc; exact h rfl)
  | .error x, .error y =>
      if h : x = y then .isTrue (by rw [h]) else .isFalse (by intro hc; cases hc; exact h rfl)
  | .ok _, .error _ => .isFalse (by intro hc; cases hc)
  | .error _, .ok _ => .isFalse (by intro hc; cases hc)

/-! ## Small Python-style helpers over characters and strings -/

/-- `str(x)` for an optional CSV field: `None` prints as `"None"`
(as happens when `csv.DictReader`'s `restval = None` reaches
`ipaddress.ip_address`, whose `IPv4Address.__init__` does `str(address)`). -/
def pyStr : Option String → String
  | none => "None"
  | some s => s

/-- How `csv.writer` serializes a cell: `None` becomes the empty field. -/
def cellStr : Option String → String
  | none => ""
  | some s => s

/-- Python `x or None` for a CSV field (empty string normalized to `None`). -/
def pyOrNone : Option String → Option String
  | none => none
  | some s => if s = "" then none else some s

/-- ASCII decimal digit test: Python's `s.isascii() and s.isdigit()`
restricted to one character (the `isascii` guard cuts Unicode digits,
so only `'0'`–`'9'` remain). -/
def isAsciiDigit (c : Char) : Bool := '0' ≤ c ∧ c ≤ '9'

/-- Membership in CPython's `_HEX_DIGITS = frozenset('0123456789ABCDEFabcdef')`. -/
def isHexDigit (c : Char) : Bool :=
  ('0' ≤ c ∧ c ≤ '9') ∨ ('a' ≤ c ∧ c ≤ 'f') ∨ ('A' ≤ c ∧ c ≤ 'F')

/-- Numeric value of one hex digit. -/
def hexDigitVal (c : Char) : Nat :=
  if '0' ≤ c ∧ c ≤ '9' then c.toNat - 48
  else if 'a' ≤ c ∧ c ≤ 'f' then c.toNat - 87
  else c.toNat - 55

/-- `int(s, 10)` over already-validated decimal digits. -/
def decVal (l : List Char) : Nat := l.foldl (fun n c => n * 10 + (c.toNat - 48)) 0

/-- `int(s, 16)` over already-validated hex digits. -/
def hexVal (l : List Char) : Nat := l.foldl (fun n c => n * 16 + hexDigitVal c) 0

/-- Python `str.split(sep)` for a one-character separator
(`"".split(c) = [""]`, separators at the ends produce empty pieces). -/
def splitChAux (c : Char) : List Char → List Char → List (List Char)
  | [], acc => [acc.reverse]
  | a :: rest, acc =>
      if a = c then acc.reverse :: splitChAux c rest []
      else splitChAux c rest (a :: acc)

def splitCh (c : Char) (l : List Char) : List (List Char) := splitChAux c l []

/-- Python `str.upper()` per character (ASCII; the scripts' inputs are
country codes and similar ASCII data, where CPython's Unicode `upper`
agrees with `Char.toUpper`). -/
def pyUpper (s : String) : String := String.mk (s.data.map Char.toUpper)

/-- Python `str.lower()` per character (ASCII, as for `pyUpper`). -/
def pyLower (s : String) : String := String.mk (s.data.map Char.toLower)

/-- Python `s[:n]` (slicing counts code points, like `List.take` on chars). -/
def pyTake (s : String) (n : Nat) : String := String.mk (s.data.take n)

/-- `mapOpt f l` is `Option.mapM`: `some` of the mapped list iff every
element maps to `some`.  (Own recursion, to keep induction simple.) -/
def mapOpt (f : α → Option β) : List α → Option (List β)
  | [] => some []
  | x :: xs =>
    match f x, mapOpt f xs with
    | some y, some ys => some (y :: ys)
    | _, _ => none

/-! ## Bit-length and trailing zeros (`int.bit_length`, `_count_righthand_zero_bits`) -/

/-- Fuel-driven core of `int.bit_length()`: number of binary digits.
The fuel only needs to dominate the number of halvings. -/
def bitLenAux : Nat → Nat → Nat
  | 0, _ => 0
  | f + 1, n => if n = 0 then 0 else bitLenAux f (n / 2) + 1

/-- Python `n.bit_length()` (`0` for `0`). -/
def bitLength (n : Nat) : Nat := bitLenAux n n

/-- Fuel-driven count of trailing zero bits of a positive number. -/
def tzAux : Nat → Nat → Nat
  | 0, _ => 0
  | f + 1, n => if n % 2 = 0 ∧ n ≠ 0 then tzAux f (n / 2) + 1 else 0

/-- CPython `ipaddress._count_righthand_zero_bits(number, bits)`:
`bits` when `number == 0`, otherwise `min(bits, (~number & (number-1)).bit_length())`;
for positive `number` that bit trick computes exactly the number of
trailing zero bits, which is what `tzAux` counts directly. -/
def countRighthandZeroBits (number bits : Nat) : Nat :=
  if number = 0 then bits else min bits (tzAux number number)

/-! ## IPv4 address parsing (CPython `_BaseV4._ip_int_from_string`) -/

/-- CPython `_BaseV4._parse_octet`: non-empty, ASCII digits only, at most
3 characters, no leading zeros (except `"0"` itself), value ≤ 255. -/
def parseOctet (oct : List Char) : Option Nat :=
  if oct = [] then none
  else if ¬ (oct.all isAsciiDigit) then none
  else if oct.length > 3 then none
  else if oct ≠ ['0'] ∧ oct.headD ' ' = '0' then none
  else
    let v := decVal oct
    if v > 255 then none else some v

/-- CPython `_BaseV4._ip_int_from_string`: reject empty, split on `'.'`,
require exactly 4 octets, combine big-endian. -/
def v4IntFromString (s : List Char) : Option Nat :=
  if s = [] then none
  else
    match splitCh '.' s with
    | [o1, o2, o3, o4] =>
      match parseOctet o1, parseOctet o2, parseOctet o3, parseOctet o4 with
      | some a, some b, some c, some d => some (((a * 256 + b) * 256 + c) * 256 + d)
      | _, _, _, _ => none
    | _ => none

/-- `IPv4Address(str)`: rejects `'/'`, then parses the dotted quad. -/
def parseIPv4 (s : List Char) : Option Nat :=
  if s.contains '/' then none else v4IntFromString s

/-! ## IPv6 address parsing (CPython `_BaseV6._ip_int_from_string`) -/

/-- `'%x' % n`: lowercase hex without padding. -/
def natToHexAux : Nat → Nat → List Char
  | 0, _ => []
  | f + 1, n =>
      if n = 0 then []
      else natToHexAux f (n / 16) ++
        [if n % 16 < 10 then Char.ofNat (48 + n % 16) else Char.ofNat (87 + n % 16)]

def natToHex (n : Nat) : List Char := if n = 0 then ['0'] else natToHexAux n n

/-- CPython `_BaseV6._parse_hextet`: all characters from `_HEX_DIGITS`
(vacuously true of the empty string), at most 4 characters, then
`int(s, 16)` — which fails on the empty string. -/
def parseHextet (h : List Char) : Option Nat :=
  if ¬ (h.all isHexDigit) then none
  else if h.length > 4 then none
  else if h = [] then none
  else some (hexVal h)

/-- Combine the parsed leading hextets, the `::`-skipped zero hextets and
the trailing hextets into the 128-bit integer, exactly as the two shift
loops at the end of `_ip_int_from_string` do. -/
def v6Combine (hiParts loParts : List (List Char)) (skipped : Nat) : Option Nat :=
  match mapOpt parseHextet hiParts, mapOpt parseHextet loParts with
  | some hs, some ls =>
      some ((hs.foldl (fun acc h => acc * 65536 + h) 0) * 2 ^ (16 * (skipped + ls.length)) +
            ls.foldl (fun acc h => acc * 65536 + h) 0)
  | _, _ => none

/-- If the last colon-separated part contains a `'.'`, parse it as an
IPv4 address and replace it by its two hexadecimal hextets
(`parts.pop()`; `parts.append('%x' % ((v >> 16) & 0xFFFF))`;
`parts.append('%x' % (v & 0xFFFF))`). -/
def v6EmbedV4 (parts : List (List Char)) : Option (List (List Char)) :=
  let lst := parts.getLastD []
  if lst.contains '.' then
    match v4IntFromString lst with
    | none => none
    | some v => some (parts.dropLast ++ [natToHex (v / 65536 % 65536), natToHex (v % 65536)])
  else some parts

/-- `parts_hi` after the `if not parts[0]: parts_hi -= 1` adjustment. -/
def v6HiCount (parts : List (List Char)) (i : Nat) : Nat :=
  if parts.headD [] = [] then i - 1 else i

/-- `parts_lo` after the `if not parts[-1]: parts_lo -= 1` adjustment
(the unadjusted value is `len(parts) - skip_index - 1`). -/
def v6LoCount (parts : List (List Char)) (i : Nat) : Nat :=
  if parts.getLastD [] = [] then parts.length - i - 1 - 1 else parts.length - i - 1

/-- The `skip_index is not None` branch of `_ip_int_from_string`, with
the `::` at inner position `i`: an empty first (last) part is only legal
when everything before (after) the `::` is empty; at least one hextet
must be skipped (`parts_skipped = 8 - (hi + lo) ≥ 1`). -/
def v6SkipCase (parts : List (List Char)) (i : Nat) : Option Nat :=
  if parts.headD [] = [] ∧ i - 1 ≠ 0 then none
  else if parts.getLastD [] = [] ∧ parts.length - i - 1 - 1 ≠ 0 then none
  else if v6HiCount parts i + v6LoCount parts i > 7 then none
  else
    v6Combine (parts.take (v6HiCount parts i))
      (parts.drop (parts.length - v6LoCount parts i))
      (8 - (v6HiCount parts i + v6LoCount parts i))

/-- CPython `_BaseV6._ip_int_from_string`.  `_HEXTET_COUNT = 8`;
at least 3 colon-separated parts; optional trailing embedded IPv4;
at most 9 parts; at most one empty part strictly inside (the `::`);
without a `::` there must be exactly 8 parts, all parsed as hextets
(so empty end parts fail at `_parse_hextet`). -/
def v6IntFromString (s : List Char) : Option Nat :=
  if s = [] then none
  else if (splitCh ':' s).length < 3 then none
  else
    match v6EmbedV4 (splitCh ':' s) with
    | none => none
    | some parts =>
      if parts.length > 9 then none
      else
        match (List.range parts.length).filter
            (fun i => 0 < i ∧ i < parts.length - 1 ∧ parts.getD i [] = []) with
        | [] =>
          -- no '::': exactly 8 parts, all parsed as hextets (empty ends fail there)
          if parts.length ≠ 8 then none else v6Combine parts [] 0
        | [i] => v6SkipCase parts i
        | _ => none                          -- more than one '::'

/-- CPython `IPv6Address._split_scope_id`: split at the first `'%'`;
a present scope id must be non-empty and contain no further `'%'`. -/
def splitScope (l : List Char) : List Char × Option (List Char) :=
  let addr := l.takeWhile (fun c => c ≠ '%')
  match l.dropWhile (fun c => c ≠ '%') with
  | [] => (addr, none)
  | _ :: scope => (addr, some scope)

/-- `IPv6Address(str)`: rejects `'/'`, strips and validates the scope id
(`_split_scope_id`), then parses the address.  The result keeps both the
128-bit value (`_ip`) and the scope id (`_scope_id`, `none` when
absent): the scope id does not affect the numeric value, but
`IPv6Address.__eq__` compares it. -/
def parseIPv6Scoped (s : List Char) : Option (Nat × Option (List Char)) :=
  if s.contains '/' then none
  else
    match splitScope s with
    | (addr, none) => (v6IntFromString addr).map (fun n => (n, none))
    | (addr, some scope) =>
        if scope = [] ∨ scope.contains '%' then none
        else (v6IntFromString addr).map (fun n => (n, some scope))

/-- The numeric value of a parsed IPv6 address (what `IPv6Network`'s
address part uses; networks ignore the scope id's effect on ordering). -/
def parseIPv6 (s : List Char) : Option Nat := (parseIPv6Scoped s).map (fun p => p.1)

/-- Address family. -/
inductive Fam | v4 | v6
deriving DecidableEq, Repr

/-- Address width per family (`_max_prefixlen`). -/
def famBits : Fam → Nat
  | .v4 => 32
  | .v6 => 128

/-- A parsed address object as the script holds it: version, numeric
value (`_ip`) and, for IPv6, the optional scope id (`_scope_id`). -/
structure PyIpAddr where
  fam : Fam
  ip : Nat
  scopeId : Option (List Char)
deriving DecidableEq, Repr

/-- `ipaddress.ip_address(s)` for a string `s`: try `IPv4Address`, then
`IPv6Address`; `none` models the `ValueError` raised when neither parses. -/
def parse_ip (s : String) : Option PyIpAddr :=
  match parseIPv4 s.data with
  | some n => some ⟨.v4, n, none⟩
  | none =>
    match parseIPv6Scoped s.data with
    | some p => some ⟨.v6, p.1, p.2⟩
    | none => none

/-- Python `first > last` on two parsed addresses of the same version,
as `summarize_address_range` evaluates it: `functools.total_ordering`
derives `a > b` as `not (a < b or a == b)`, where `_BaseAddress.__lt__`
compares the numeric `_ip` only but `IPv6Address.__eq__` also compares
the scope ids — so numerically equal addresses with different scope ids
compare as `first > last`. -/
def pyIpGt (a b : PyIpAddr) : Bool :=
  ¬ (a.ip < b.ip) ∧ ¬ (a.ip = b.ip ∧ a.scopeId = b.scopeId)

/-! ## `ipaddress.summarize_address_range` (the loop over address integers) -/

/-- One network produced by the summarization: base address integer and
prefix length, in a fixed family handled by the caller.  The constructor
`ip((first_int, ip_bits - nbits))` in CPython cannot fail here because
`nbits` never exceeds the number of trailing zero bits of `first_int`. -/
def summarizeAux (bits : Nat) : Nat → Nat → Nat → List (Nat × Nat)
  | 0, _, _ => []
  | fuel + 1, first, last =>
    if first ≤ last then
      let nbits := min (countRighthandZeroBits first bits) (bitLength (last - first + 1) - 1)
      (first, bits - nbits) ::
        (if first + 2 ^ nbits - 1 = 2 ^ bits - 1 then []   -- `first_int - 1 == ip._ALL_ONES: break`
         else summarizeAux bits fuel (first + 2 ^ nbits) last)
    else []

/-- The `while first_int <= last_int` loop of `summarize_address_range`.
`first` grows by at least 1 each iteration, so `last + 1 - first` bounds
the number of iterations and is a sufficient fuel. -/
def summarize_address_range (first last bits : Nat) : List (Nat × Nat) :=
  summarizeAux bits (last + 1 - first) first last

/-! ## `str()` of networks (IPv4 dotted quad, IPv6 RFC-5952 compression) -/

/-- `'%d' % n` (decimal digits of a natural number). -/
def natToDecAux : Nat → Nat → List Char
  | 0, _ => []
  | f + 1, n => if n = 0 then [] else natToDecAux f (n / 10) ++ [Char.ofNat (48 + n % 10)]

def natToDec (n : Nat) : List Char := if n = 0 then ['0'] else natToDecAux n n

/-- `str(IPv4Address)`: the four octets in decimal, joined with `'.'`. -/
def v4AddrStr (n : Nat) : String :=
  String.mk (natToDec (n / 16777216 % 256) ++ '.' :: natToDec (n / 65536 % 256) ++
             '.' :: natToDec (n / 256 % 256) ++ '.' :: natToDec (n % 256))

/-- The 8 hextet values of a 128-bit address, most significant first. -/
def v6Hextets (n : Nat) : List Nat :=
  [n / 2 ^ 112 % 65536, n / 2 ^ 96 % 65536, n / 2 ^ 80 % 65536, n / 2 ^ 64 % 65536,
   n / 2 ^ 48 % 65536, n / 2 ^ 32 % 65536, n / 2 ^ 16 % 65536, n % 65536]

/-- The scan of CPython `_BaseV6._compress_hextets` locating the best
(leftmost longest) run of zero hextets: state is
(index, current run start, current run length, best start, best length). -/
def v6BestRun (hs : List Nat) : Nat × Nat :=
  let st := hs.foldl
    (fun (st : Nat × Option Nat × Nat × Nat × Nat) h =>
      let (idx, curStart, curLen, bestStart, bestLen) := st
      if h = 0 then
        let curStart' := curStart.getD idx
        let curLen' := curLen + 1
        if curLen' > bestLen then (idx + 1, some curStart', curLen', curStart', curLen')
        else (idx + 1, some curStart', curLen', bestStart, bestLen)
      else (idx + 1, none, 0, bestStart, bestLen))
    (0, none, 0, 0, 0)
  (st.2.2.2.1, st.2.2.2.2)

/-- CPython `_BaseV6._compress_hextets` followed by `':'.join(...)`:
replace the best run (if longer than 1) by an empty piece, adding empty
pieces at the ends so the join produces `::` there. -/
def v6AddrStr (n : Nat) : String :=
  let hs := v6Hextets n
  let pieces := hs.map (fun h => String.mk (natToHex h))
  let (bestStart, bestLen) := v6BestRun hs
  let pieces' :=
    if bestLen > 1 then
      (if bestStart = 0 then [""] else []) ++
      pieces.take bestStart ++ [""] ++ pieces.drop (bestStart + bestLen) ++
      (if bestStart + bestLen = 8 then [""] else [])
    else pieces
  String.intercalate ":" pieces'

/-- One CIDR block as produced by the conversion: family, base address
integer, prefix length. -/
structure Cidr where
  fam : Fam
  base : Nat
  plen : Nat
deriving DecidableEq, Repr

/-- `str(network)`: address, `'/'`, prefix length. -/
def cidrStr (c : Cidr) : String :=
  match c.fam with
  | .v4 => v4AddrStr c.base ++ "/" ++ String.mk (natToDec c.plen)
  | .v6 => v6AddrStr c.base ++ "/" ++ String.mk (natToDec c.plen)

/-- Smallest address of a block. -/
def cidrLo (c : Cidr) : Nat := c.base

/-- Largest address of a block. -/
def cidrHi (c : Cidr) : Nat := c.base + 2 ^ (famBits c.fam - c.plen) - 1

/-! ## `ip_range_to_cidrs` (convert-ip-data.py, lines 49–69)

The Python function wraps everything in
`try: ... except (ValueError, ipaddress.AddressValueError): return []`.
`AddressValueError` is a subclass of `ValueError`, so every `ValueError`
(unparsable address, `start > end`) is caught and turned into `[]` —
but the `TypeError` that `summarize_address_range` raises for two
addresses of different versions is *not* in the `except` tuple and
escapes the function (and, further up, escapes `process_csv`). -/

/-- The blocks computed by `ip_range_to_cidrs`, before `str()`:
`.ok []` models the caught-`ValueError` path, `.error .typeError` the
escaping mixed-family `TypeError`. -/
def ipRangeToCidrBlocks (startIp endIp : String) : Except PyExc (List Cidr) :=
  match parse_ip startIp with
  | none => .ok []                                  -- ValueError: caught, []
  | some a =>
    match parse_ip endIp with
    | none => .ok []                                -- ValueError: caught, []
    | some b =>
      if a.fam ≠ b.fam then .error .typeError       -- TypeError: NOT caught
      else if pyIpGt a b then .ok []                -- ValueError: caught, []
      else .ok ((summarize_address_range a.ip b.ip (famBits a.fam)).map
                  (fun p => ⟨a.fam, p.1, p.2⟩))

/-- `ip_range_to_cidrs(start_ip, end_ip)` as the script returns it:
the list of `str(cidr)` strings. -/
def ip_range_to_cidrs (startIp endIp : String) : Except PyExc (List String) :=
  (ipRangeToCidrBlocks startIp endIp).map (List.map cidrStr)

/-! ## `process_csv` (convert-ip-data.py, lines 77–236)

An input record is one CSV line, as the list of its fields.
`csv.DictReader` with the fixed six field names yields, for each
non-empty line, a dict in which field `i` holds the line's `i`-th field
and fields beyond the line's length hold `None` (`restval`) — modelled
by `List.get?`.  Output partitions hold the rows exactly as
`csv.writer`/`csv.reader` round-trip them (cells as written strings). -/

/-- The country table (`COUNTRY_NAMES`), a read-only map loaded at
startup; modelled as the lookup function of the dict built by
`load_country_names` (`dict.get`: `none` when the code is unmapped). -/
abbrev CountryTable := String → Option String

/-- `get_country_name(country_code)` (lines 72–74):
`COUNTRY_NAMES.get(country_code.upper(), country_code)`. -/
def get_country_name (tbl : CountryTable) (countryCode : String) : String :=
  (tbl (pyUpper countryCode)).getD countryCode

/-- The header row written at the start of part 1 (lines 123–130). -/
def header : List String :=
  ["network", "continent_code", "country_code", "country_name", "region_name", "city_name"]

/-- `row_size = sum(len(str(x)) if x else 0 for x in row_data) + 10`
(line 181): falsy cells (`None`, `''`) count 0, truthy strings their
length, plus 10 for delimiters. -/
def rowEst (row : List (Option String)) : Nat :=
  (row.map (fun cell =>
    match cell with
    | none => 0
    | some s => if s = "" then 0 else s.length)).sum + 10

/-- The same estimate computed from the serialized cells. -/
def rowEstW (row : List String) : Nat := (row.map String.length).sum + 10

/-- Sum of the row-size estimates of a list of written rows. -/
def estSum (rows : List (List String)) : Nat := (rows.map rowEstW).sum

/-- Mutable state of `process_csv`'s writing loop.  `closed` holds the
contents of the partition files already rotated out, `current` the rows
written to the currently open file (the header row included for part 1). -/
structure PipeState where
  rowCount : Nat
  outputCount : Nat
  errorCount : Nat
  fileCount : Nat
  currentSize : Nat
  closed : List (List (List String))
  current : List (List String)
deriving DecidableEq, Repr

/-- `open_new_file(part_num)` (lines 112–134): fresh row list with the
header only for part 1, and `current_file_size = 0`. -/
def openNewFile (partNum : Nat) : List (List String) :=
  if partNum = 1 then [header] else []

/-- Writing one output row (lines 177–188): serialize and append the
row, bump `output_count`, add the size estimate, and rotate to the next
partition when `current_file_size >= max_size_bytes`. -/
def writeRow (maxB : Nat) (st : PipeState) (rowData : List (Option String)) : PipeState :=
  let st1 : PipeState :=
    { st with
      current := st.current ++ [rowData.map cellStr]
      outputCount := st.outputCount + 1
      currentSize := st.currentSize + rowEst rowData }
  if maxB ≤ st1.currentSize then
    { st1 with
      closed := st1.closed ++ [st1.current]
      fileCount := st1.fileCount + 1
      current := openNewFile (st1.fileCount + 1)
      currentSize := 0 }
  else st1

/-- The loop body for one input record (lines 145–188).  The record's
fields are read as `csv.DictReader` provides them; the missing-country
case `row.get('country', '').upper()` finds the key present with value
`None` (`restval`), so `None.upper()` raises `AttributeError`, which no
handler in `process_csv` catches. -/
def processRecord (tbl : CountryTable) (maxB : Nat) (st : PipeState)
    (rec : List String) : Except PyExc PipeState :=
  let st := { st with rowCount := st.rowCount + 1 }
  match ipRangeToCidrBlocks (pyStr rec[0]?) (pyStr rec[1]?) with
  | .error e => .error e                            -- TypeError escapes the loop
  | .ok [] => .ok { st with errorCount := st.errorCount + 1 }  -- lines 155-157
  | .ok cidrs =>
    -- lines 159-164
    let continentCode : String :=
      match rec[2]? with
      | none => ""
      | some s => if s = "" then "" else pyTake s 2
    match rec[3]? with
    | none => .error .attributeError                -- None.upper()
    | some country =>
      let countryCode := pyUpper country
      let countryName := if countryCode = "" then "" else get_country_name tbl countryCode
      let regionName := pyOrNone rec[4]?
      let cityName := pyOrNone rec[5]?
      -- lines 166-188: one output row per CIDR block
      .ok (cidrs.foldl
        (fun s c =>
          writeRow maxB s
            [some (cidrStr c), some continentCode, some countryCode,
             some countryName, regionName, cityName])
        st)

/-- The `for row in reader` loop (an escaping exception aborts it). -/
def runRecords (tbl : CountryTable) (maxB : Nat) :
    PipeState → List (List String) → Except PyExc PipeState
  | st, [] => .ok st
  | st, r :: rs =>
    match processRecord tbl maxB st r with
    | .error e => .error e
    | .ok st' => runRecords tbl maxB st' rs

/-- State before the loop: part 1 is open with its header written,
all counters zero (lines 92–97 and 136–137). -/
def initPipeState : PipeState :=
  { rowCount := 0, outputCount := 0, errorCount := 0, fileCount := 1,
    currentSize := 0, closed := [], current := openNewFile 1 }

/-- What a completed run of `process_csv` leaves on disk, plus the
counters it reports. -/
structure PipeResult where
  partitions : List (List (List String))
  merged : List (List String)
  rowCount : Nat
  outputCount : Nat
  errorCount : Nat
  fileCount : Nat
deriving DecidableEq, Repr

/-- `process_csv(input, output, max_size_mb)` (lines 77–236) over the
already-tokenized CSV records.  `csv.DictReader` silently skips fully
empty lines, hence the filter.  The merge step (lines 197–215) copies
part 1 in full (header first, via `next(reader)`, then its remaining
rows) and then every row of every later part, i.e. the concatenation of
all partition contents; part 1 is never empty since its header is
written when it is opened. -/
def process_csv (tbl : CountryTable) (maxSizeMB : Nat)
    (records : List (List String)) : Except PyExc PipeResult :=
  let maxB := maxSizeMB * 1024 * 1024
  match runRecords tbl maxB initPipeState (records.filter (fun r => r ≠ [])) with
  | .error e => .error e
  | .ok st =>
    let parts := st.closed ++ [st.current]
    .ok { partitions := parts
          merged := parts.flatten
          rowCount := st.rowCount
          outputCount := st.outputCount
          errorCount := st.errorCount
          fileCount := st.fileCount }

/-- All output rows written so far, in order, regardless of which
partition they landed in. -/
def allRows (st : PipeState) : List (List String) := st.closed.flatten ++ st.current

/-- The data rows of the partition at index `idx`: partition 0 carries
the header as its first row, later partitions only data rows. -/
def dataRowsAt (idx : Nat) (p : List (List String)) : List (List String) :=
  if idx = 0 then p.drop 1 else p

/-! ## JSON documents (for reset-add-toc.py and convert-ips.py)

`json.load` produces dicts (insertion-ordered, unique keys), lists,
strings, integers/floats, booleans and `None`; numbers are modelled as
integers (the scripts only ever put strings and containers where they
look).  A dict is an association list in key order. -/

inductive Json where
  | null : Json
  | bool : Bool → Json
  | num : Int → Json
  | str : String → Json
  | arr : List Json → Json
  | obj : List (String × Json) → Json

/-- Python `d.get(k)` / `d[k]` on a dict: the value at the first (only)
matching key. -/
def dictGet (d : List (String × Json)) (k : String) : Option Json :=
  match d with
  | [] => none
  | (k', v) :: rest => if k' = k then some v else dictGet rest k

/-- Python `d[k] = v` on a dict: replace the value of an existing key in
place (keeping its position), otherwise append the new key at the end. -/
def dictSet (d : List (String × Json)) (k : String) (v : Json) : List (String × Json) :=
  match d with
  | [] => [(k, v)]
  | (k', v') :: rest => if k' = k then (k', v) :: rest else (k', v') :: dictSet rest k v

/-! ## reset-add-toc.py (lines 12–35)

For one loaded `index.json` document: read
`applied = data.get("applied_actions", [])`; if `"add_toc" not in
applied`, skip the file (it is not rewritten); otherwise filter the
`add_toc` entries out, store the filtered list back, set
`data["last_pipeline"] = "generate"`, and rewrite the file.  The model
covers the default (non-`--dry-run`) invocation, where matching files
are written back. -/

/-- Python `"add_toc" == x` for a JSON value `x`: true exactly for the
string `"add_toc"` (equality across types is `False` in Python). -/
def isAddToc : Json → Bool
  | .str s => s == "add_toc"
  | _ => false

/-- Contiguous-substring test (Python `needle in haystack` on strings). -/
def isSubSeq (needle hay : List Char) : Bool :=
  hay.tails.any (fun t => needle.isPrefixOf t)

/-- Python `"add_toc" in applied` for the possible JSON values of
`applied_actions`: list membership, substring test on a string, key
membership on a dict; `TypeError` on the remaining types. -/
def pyContainsAddToc : Json → Except PyExc Bool
  | .arr l => .ok (l.any isAddToc)
  | .str s => .ok (isSubSeq "add_toc".data s.data)
  | .obj kvs => .ok (kvs.any (fun p => p.1 == "add_toc"))
  | _ => .error .typeError

/-- Python `[a for a in applied if a != "add_toc"]`: iterate a list's
elements, a string's characters (one-character strings), or a dict's
keys.  Only reached when `pyContainsAddToc` succeeded. -/
def pyFilterAddToc : Json → List Json
  | .arr l => l.filter (fun a => ¬ isAddToc a)
  | .str s => (s.data.map (fun c => Json.str (String.mk [c]))).filter
      (fun a => ¬ isAddToc a)
  | .obj kvs => (kvs.map (fun p => Json.str p.1)).filter (fun a => ¬ isAddToc a)
  | _ => []

/-- The per-file body of reset-add-toc.py's loop: `none` when the file
is skipped (not rewritten), `some` of the rewritten document otherwise. -/
def resetAddToc (data : List (String × Json)) :
    Except PyExc (Option (List (String × Json))) :=
  let applied := (dictGet data "applied_actions").getD (Json.arr [])
  match pyContainsAddToc applied with
  | .error e => .error e
  | .ok false => .ok none
  | .ok true =>
    let d1 := dictSet data "applied_actions" (Json.arr (pyFilterAddToc applied))
    let d2 := dictSet d1 "last_pipeline" (Json.str "generate")
    .ok (some d2)

/-! ## convert-ips.py (ip-to-bot)

`main` builds a filename → bot-name map from `bot-sources.json`, then
for each crawler JSON file: skip it if its filename is unmapped; load it
(any load failure is caught and the file skipped); extract its IP-range
entries; keep those passing `validate_cidr`; and emit one
`{network, bot_name}` row per kept entry. -/

/-- One entry of `bot-sources.json` as `main` reads it
(`bot['name']`, `bot.get('ip_ranges_url')`). -/
structure Bot where
  name : String
  ip_ranges_url : Option String
deriving DecidableEq, Repr

/-- Python truthiness of the `ip_ranges_url` field. -/
def truthyUrl : Option String → Bool
  | none => false
  | some s => s ≠ ""

/-- `bot['name'].replace(' ', '-').lower() + '.json'` (line 65). -/
def botFilename (b : Bot) : String :=
  pyLower (String.mk (b.name.data.map (fun c => if c = ' ' then '-' else c))) ++ ".json"

/-- Here the dict maps filenames to bot names (strings), reusing the
JSON dict representation with string values. -/
def strDictSet (d : List (String × String)) (k v : String) : List (String × String) :=
  match d with
  | [] => [(k, v)]
  | (k', v') :: rest => if k' = k then (k', v) :: rest else (k', v') :: strDictSet rest k v

def strDictGet (d : List (String × String)) (k : String) : Option String :=
  match d with
  | [] => none
  | (k', v) :: rest => if k' = k then some v else strDictGet rest k

/-- The `bot_map` built in lines 62–66. -/
def botMap (bots : List Bot) : List (String × String) :=
  bots.foldl
    (fun m b => if truthyUrl b.ip_ranges_url then strDictSet m (botFilename b) b.name else m)
    []

/-- `parse_ip_ranges(data)` (lines 18–32): `data.get('prefixes', [])`
then one pass over its entries, collecting strings directly and the
`ipv4Prefix`/`ipv6Prefix` values of dict entries (in that order); other
entry types are silently skipped.  Iterating a string yields its
characters (as one-character strings) and iterating a dict yields its
keys; iterating `None`/numbers/booleans raises `TypeError`, and
`data.get` on a non-dict document raises `AttributeError`. -/
def parse_ip_ranges (data : Json) : Except PyExc (List Json) :=
  match data with
  | .obj kvs =>
    match (dictGet kvs "prefixes").getD (Json.arr []) with
    | .arr entries =>
      .ok (entries.foldl
        (fun acc e =>
          match e with
          | .str _ => acc ++ [e]
          | .obj kv =>
            (acc ++ ((dictGet kv "ipv4Prefix").map (fun v => [v])).getD [])
              ++ ((dictGet kv "ipv6Prefix").map (fun v => [v])).getD []
          | _ => acc)
        [])
    | .str s => .ok (s.data.map (fun c => Json.str (String.mk [c])))
    | .obj kv => .ok (kv.map (fun p => Json.str p.1))
    | _ => .error .typeError
  | _ => .error .attributeError

/-- CPython `_prefix_from_prefix_string`: ASCII decimal digits only
(rejecting sign/whitespace), value within `0..bits`. -/
def plenFromString (p : List Char) (bits : Nat) : Option Nat :=
  if p = [] then none
  else if ¬ (p.all isAsciiDigit) then none
  else if decVal p ≤ bits then some (decVal p) else none

/-- CPython `_prefix_from_ip_int`: the mask integer must be
`prefixlen` one-bits followed by zero-bits. -/
def plenFromMaskInt (m bits : Nat) : Option Nat :=
  let tz := countRighthandZeroBits m bits
  let plen := bits - tz
  if m / 2 ^ tz = 2 ^ plen - 1 then some plen else none

/-- IPv4 netmask argument (CPython `_BaseV4._make_netmask` for strings):
prefix-length digits, else a dotted-decimal netmask or hostmask. -/
def v4Plen (p : List Char) : Option Nat :=
  match plenFromString p 32 with
  | some n => some n
  | none =>
    match v4IntFromString p with
    | none => none
    | some m =>
      match plenFromMaskInt m 32 with
      | some n => some n
      | none => plenFromMaskInt (2 ^ 32 - 1 - m) 32   -- hostmask: ip_int ^= ALL_ONES

/-- `IPv4Network(s)` (strict): at most one `'/'`; the address part an
IPv4 address; the mask part a prefix length or (host)mask; no host bits
set below the mask. -/
def v4NetworkOk (s : List Char) : Bool :=
  match splitCh '/' s with
  | [a] =>
    match v4IntFromString a with
    | some _ => true                    -- /32, host bits trivially clear
    | none => false
  | [a, p] =>
    match v4IntFromString a, v4Plen p with
    | some n, some plen => n % 2 ^ (32 - plen) = 0
    | _, _ => false
  | _ => false

/-- `IPv6Network(s)` (strict): like IPv4 but the mask part must be a
prefix length, and the address part may carry a scope id. -/
def v6NetworkOk (s : List Char) : Bool :=
  match splitCh '/' s with
  | [a] => (parseIPv6 a).isSome
  | [a, p] =>
    match parseIPv6 a, plenFromString p 128 with
    | some n, some plen => n % 2 ^ (128 - plen) = 0
    | _, _ => false
  | _ => false

/-- `validate_cidr(cidr)` (lines 34–40): `ipaddress.ip_network(cidr)`
succeeds.  A JSON string goes through the network parsers (note the
split on `'/'` happens before the address parse, so `parseIPv4`'s own
`'/'` rejection never fires here); an integer (and a boolean, which is
an `int` in Python) denotes the single-address network when within
range; `None`, lists and dicts never parse. -/
def validate_cidr (j : Json) : Bool :=
  match j with
  | .str s => v4NetworkOk s.data || v6NetworkOk s.data
  | .num n => 0 ≤ n ∧ n < 2 ^ 128
  | .bool _ => true
  | _ => false

/-- One output row of convert-ips.py. -/
structure BotRow where
  network : Json
  bot_name : String

/-- The body of `main`'s file loop (lines 75–96) for one JSON file,
given as (basename, result of `load_json_file`): unmapped filenames are
skipped; a load error is caught (`except Exception`) and the file
skipped; otherwise the valid ranges are appended as rows. -/
def processBotFile (bmap : List (String × String)) (rows : List BotRow)
    (file : String × Except Unit Json) : Except PyExc (List BotRow) :=
  match strDictGet bmap file.1 with
  | none => .ok rows
  | some botName =>
    if botName = "" then .ok rows      -- `if not bot_name` is also true of ""
    else
    match file.2 with
    | .error _ => .ok rows
    | .ok data =>
      match parse_ip_ranges data with
      | .error e => .error e
      | .ok ranges =>
        .ok (rows ++ (ranges.filter validate_cidr).map (fun r => ⟨r, botName⟩))

/-- The file loop of `main`. -/
def runBotFiles (bmap : List (String × String)) :
    List BotRow → List (String × Except Unit Json) → Except PyExc (List BotRow)
  | rows, [] => .ok rows
  | rows, f :: fs =>
    match processBotFile bmap rows f with
    | .error e => .error e
    | .ok rows' => runBotFiles bmap rows' fs

/-- `main()` of convert-ips.py, from the loaded `bot-sources.json` and
the basenames/load-results of the crawler JSON files, to the rows
written to `crawler-ips.csv`. -/
def convertIpsMain (bots : List Bot) (files : List (String × Except Unit Json)) :
    Except PyExc (List BotRow) :=
  runBotFiles (botMap bots) [] files

/-! ## Proof-support definitions -/

/-- `tilesFrom bits s e l`: the blocks of `l` tile the integer interval
`[s, e]` exactly, in order and without gaps or overlaps (each block
starts where the previous one stopped; an empty list tiles the empty
interval `[s, s-1]`). -/
def tilesFrom (bits : Nat) : Nat → Nat → List (Nat × Nat) → Prop
  | s, e, [] => s = e + 1
  | s, e, c :: rest =>
      c.1 = s ∧ c.1 + 2 ^ (bits - c.2) - 1 ≤ e ∧
      tilesFrom bits (c.1 + 2 ^ (bits - c.2)) e rest

/-- A written output row: its first cell is a CIDR string, which always
contains a `'/'` (so it can never equal the header row). -/
def isDataRow (r : List String) : Prop :=
  ∃ c rest, r = c :: rest ∧ '/' ∈ c.data

/-- Shape of the partition list at any point of the run: the first
partition starts with the header and otherwise holds data rows; all
later partitions hold data rows only. -/
def partsShape : List (List (List String)) → Prop
  | [] => True
  | p0 :: rest =>
      (∃ d, p0 = header :: d ∧ ∀ r ∈ d, isDataRow r) ∧
      ∀ p ∈ rest, ∀ r ∈ p, isDataRow r

/-- The size property of a closed partition's data rows: the estimates
reach the threshold only with the very last row. -/
def sizedOk (maxB : Nat) (rows : List (List String)) : Prop :=
  maxB ≤ estSum rows ∧ estSum rows.dropLast < maxB

/-- All already-closed partitions were closed exactly on crossing the
threshold (the first one not counting its header row). -/
def closedOk (maxB : Nat) : List (List (List String)) → Prop
  | [] => True
  | p0 :: rest => sizedOk maxB (p0.drop 1) ∧ ∀ p ∈ rest, sizedOk maxB p

/-- The data rows of the currently open partition. -/
def curData (st : PipeState) : List (List String) :=
  if st.closed.length = 0 then st.current.drop 1 else st.current

/-- Structural invariant of the writing loop (headers and data rows). -/
structure ShapeInv (st : PipeState) : Prop where
  shape : partsShape (st.closed ++ [st.current])
  fc : st.fileCount = st.closed.length + 1

/-- Size-accounting invariant of the writing loop (needs a positive
threshold: `current_file_size` is always strictly below it). -/
structure SizeInv (maxB : Nat) (st : PipeState) : Prop where
  size_eq : st.currentSize = estSum (curData st)
  size_lt : st.currentSize < maxB
  closed_ok : closedOk maxB st.closed

/-- The `row_data` the conversion builds for one CIDR block of a record
whose `country` field is present (lines 160–175): continent truncated to
two characters (`''` when absent or empty), country upper-cased, country
name looked up through `get_country_name` (`''` when the code is empty),
and `stateprov`/`city` carried through with `''` normalized to `None`. -/
def enrichedRow (tbl : CountryTable) (rec : List String) (country : String)
    (c : Cidr) : List (Option String) :=
  [some (cidrStr c),
   some (match rec[2]? with
         | none => ""
         | some s => if s = "" then "" else pyTake s 2),
   some (pyUpper country),
   some (if pyUpper country = "" then "" else get_country_name tbl (pyUpper country)),
   pyOrNone rec[4]?,
   pyOrNone rec[5]?]

/-- An empty country table, for concrete runs. -/
def emptyTbl : CountryTable := fun _ => none

/-- A one-entry country table, for concrete runs. -/
def demoTbl : CountryTable := fun c => if c = "AU" then some "Australia" else none

/-- An output row of the `1.0.0.5`–`1.0.0.9` demo record. -/
def demoRow (net : String) : List String :=
  [net, "OC", "AU", "Australia", "Queensland", "Brisbane"]

/-- The result of running the pipeline on the single record
`1.0.0.5, 1.0.0.9, OC, AU, Queensland, Brisbane` with the one-entry
table and the default 90 MB partition size. -/
def demoRunResult : PipeResult :=
  { partitions := [[header, demoRow "1.0.0.5/32", demoRow "1.0.0.6/31", demoRow "1.0.0.8/31"]]
    merged := [header, demoRow "1.0.0.5/32", demoRow "1.0.0.6/31", demoRow "1.0.0.8/31"]
    rowCount := 1, outputCount := 3, errorCount := 0, fileCount := 1 }

/-- An output row of the `1.0.0.1`–`1.0.0.2` record (empty table, so the
raw code `US` doubles as the country name). -/
def splitRow (net : String) : List String := [net, "NA", "US", "US", "", ""]

/-- The result of running the pipeline on the single record
`1.0.0.1, 1.0.0.2, NA, US` with `max_size_mb = 0`: rotation after every
row, so the record's two rows land in partitions 1 and 2. -/
def splitRunResult : PipeResult :=
  { partitions := [[header, splitRow "1.0.0.1/32"], [splitRow "1.0.0.2/32"], []]
    merged := [header, splitRow "1.0.0.1/32", splitRow "1.0.0.2/32"]
    rowCount := 1, outputCount := 2, errorCount := 0, fileCount := 3 }

/-! ## Groundwork: `bitLength` and the summarization loop tile the range -/

theorem bitLenAux_zero (f : Nat) : bitLenAux f 0 = 0 := by
  cases f <;> simp [bitLenAux]

theorem bitLenAux_pos (f n : Nat) (h1 : 1 ≤ n) (h2 : n ≤ f) : 1 ≤ bitLenAux f n := by
  cases f with
  | zero => omega
  | succ g => simp only [bitLenAux]; split <;> omega

theorem bitLenAux_spec : ∀ f n, n ≤ f → 1 ≤ n →
    2 ^ (bitLenAux f n - 1) ≤ n ∧ n < 2 ^ bitLenAux f n := by
  intro f
  induction f with
  | zero => intro n h1 h2; omega
  | succ f ih =>
    intro n hn h1
    simp only [bitLenAux]
    rw [if_neg (by omega)]
    by_cases h2 : n = 1
    · subst h2
      simp [bitLenAux_zero]
    · have hhalf1 : 1 ≤ n / 2 := by omega
      have hhalff : n / 2 ≤ f := by omega
      have ihh := ih (n / 2) hhalff hhalf1
      have hL : 1 ≤ bitLenAux f (n / 2) := bitLenAux_pos f (n / 2) hhalf1 hhalff
      set L := bitLenAux f (n / 2) with hLdef
      have e1 : L + 1 - 1 = L := by omega
      rw [e1]
      constructor
      · have : 2 ^ L = 2 ^ (L - 1) * 2 := by
          rw [← pow_succ]
          congr 1
          omega
        rw [this]
        omega
      · have : 2 ^ (L + 1) = 2 ^ L * 2 := by rw [pow_succ]
        rw [this]
        omega

theorem bitLength_spec (n : Nat) (h : 1 ≤ n) :
    2 ^ (bitLength n - 1) ≤ n ∧ n < 2 ^ bitLength n :=
  bitLenAux_spec n n (le_refl n) h

theorem summarizeAux_empty (bits f s l : Nat) (h : l < s) :
    summarizeAux bits f s l = [] := by
  cases f with
  | zero => rfl
  | succ g => simp only [summarizeAux]; rw [if_neg (by omega)]

/-- The summarization loop tiles the closed interval `[first, last]`:
each emitted block starts at the current lower bound, fits inside the
remaining range, and the loop continues just past it. -/
theorem summarizeAux_tiles (bits : Nat) :
    ∀ f first last, first ≤ last → last - first < f → last < 2 ^ bits →
      tilesFrom bits first last (summarizeAux bits f first last) := by
  intro f
  induction f with
  | zero => intro first last h1 h2 _; omega
  | succ f ih =>
    intro first last h1 h2 hlt
    simp only [summarizeAux]
    rw [if_pos h1]
    set nbits := min (countRighthandZeroBits first bits) (bitLength (last - first + 1) - 1)
      with hnb
    -- the block never exceeds the remaining range: 2 ^ nbits ≤ last - first + 1
    have hm1 : 1 ≤ last - first + 1 := by omega
    have hbl := bitLength_spec (last - first + 1) hm1
    have hpow : 2 ^ nbits ≤ last - first + 1 := by
      calc 2 ^ nbits ≤ 2 ^ (bitLength (last - first + 1) - 1) := by
            apply Nat.pow_le_pow_right (by omega)
            omega
        _ ≤ last - first + 1 := hbl.1
    -- nbits ≤ bits, so the prefix subtraction round-trips
    have hnbits_le : nbits ≤ bits := by
      have : countRighthandZeroBits first bits ≤ bits := by
        unfold countRighthandZeroBits
        split <;> omega
      omega
    have hround : bits - (bits - nbits) = nbits := by omega
    have hpow1 : 1 ≤ 2 ^ nbits := Nat.one_le_two_pow
    have hhi : first + 2 ^ nbits - 1 ≤ last := by omega
    by_cases hbreak : first + 2 ^ nbits - 1 = 2 ^ bits - 1
    · -- `break`: the block ends at ALL_ONES, hence exactly at `last`
      rw [if_pos hbreak]
      have hbits1 : 1 ≤ 2 ^ bits := Nat.one_le_two_pow
      refine ⟨rfl, ?_, ?_⟩
      · rw [hround]; exact hhi
      · show first + 2 ^ (bits - (bits - nbits)) = last + 1
        rw [hround]; omega
    · rw [if_neg hbreak]
      refine ⟨rfl, ?_, ?_⟩
      · rw [hround]; exact hhi
      · show tilesFrom bits (first + 2 ^ (bits - (bits - nbits))) last _
        rw [hround]
        by_cases hcont : first + 2 ^ nbits ≤ last
        · exact ih (first + 2 ^ nbits) last hcont (by omega) hlt
        · rw [summarizeAux_empty bits f _ last (by omega)]
          show first + 2 ^ nbits = last + 1
          omega

theorem summarize_tiles (first last bits : Nat) (h1 : first ≤ last) (h2 : last < 2 ^ bits) :
    tilesFrom bits first last (summarize_address_range first last bits) :=
  summarizeAux_tiles bits (last + 1 - first) first last h1 (by omega) h2

/-! ### Consequences of tiling -/

theorem tilesFrom_block_bounds (bits : Nat) :
    ∀ l s e, tilesFrom bits s e l → ∀ c ∈ l, s ≤ c.1 ∧ c.1 + 2 ^ (bits - c.2) - 1 ≤ e := by
  intro l
  induction l with
  | nil => intro s e _ c hc; cases hc
  | cons c0 rest ih =>
    intro s e ht c hc
    obtain ⟨h1, h2, h3⟩ := ht
    rcases List.mem_cons.mp hc with rfl | hc
    · exact ⟨le_of_eq h1.symm, h2⟩
    · have := ih _ e h3 c hc
      have hp : 1 ≤ 2 ^ (bits - c0.2) := Nat.one_le_two_pow
      omega

theorem tilesFrom_mem_iff (bits : Nat) :
    ∀ l s e, tilesFrom bits s e l →
      ∀ x, (∃ c ∈ l, c.1 ≤ x ∧ x ≤ c.1 + 2 ^ (bits - c.2) - 1) ↔ (s ≤ x ∧ x ≤ e) := by
  intro l
  induction l with
  | nil =>
    intro s e ht x
    simp only [tilesFrom] at ht
    constructor
    · rintro ⟨c, hc, _⟩
      cases hc
    · intro h
      exfalso
      omega
  | cons c0 rest ih =>
    intro s e ht x
    obtain ⟨h1, h2, h3⟩ := ht
    have hp : 1 ≤ 2 ^ (bits - c0.2) := Nat.one_le_two_pow
    have ihx := ih _ e h3 x
    constructor
    · rintro ⟨c, hc, hlo, hhi⟩
      rcases List.mem_cons.mp hc with rfl | hc
      · omega
      · have := (ihx.mp ⟨c, hc, hlo, hhi⟩)
        omega
    · rintro ⟨hs, he⟩
      by_cases hin : x ≤ c0.1 + 2 ^ (bits - c0.2) - 1
      · exact ⟨c0, List.mem_cons_self c0 rest, by omega, hin⟩
      · obtain ⟨c, hc, hlo, hhi⟩ := ihx.mpr (by omega)
        exact ⟨c, List.mem_cons_of_mem c0 hc, hlo, hhi⟩

theorem tilesFrom_pairwise (bits : Nat) :
    ∀ l s e, tilesFrom bits s e l →
      l.Pairwise (fun a b => a.1 + 2 ^ (bits - a.2) - 1 < b.1) := by
  intro l
  induction l with
  | nil => intro s e _; exact List.Pairwise.nil
  | cons c0 rest ih =>
    intro s e ht
    obtain ⟨h1, h2, h3⟩ := ht
    have hp : 1 ≤ 2 ^ (bits - c0.2) := Nat.one_le_two_pow
    refine List.Pairwise.cons ?_ (ih _ e h3)
    intro c hc
    have := tilesFrom_block_bounds bits rest _ e h3 c hc
    omega

theorem tilesFrom_ne_nil (bits s e : Nat) (l : List (Nat × Nat)) (hse : s ≤ e)
    (ht : tilesFrom bits s e l) : l ≠ [] := by
  intro hnil
  subst hnil
  simp only [tilesFrom] at ht
  omega

/-! ## Groundwork: parsed addresses fit in their family's width -/

theorem char_le_toNat {a b : Char} (h : a ≤ b) : a.toNat ≤ b.toNat :=
  Char.le_def.mp h

theorem hexDigitVal_lt {c : Char} (h : isHexDigit c = true) : hexDigitVal c < 16 := by
  unfold isHexDigit at h
  have hn : (48 ≤ c.toNat ∧ c.toNat ≤ 57) ∨ (97 ≤ c.toNat ∧ c.toNat ≤ 102) ∨
      (65 ≤ c.toNat ∧ c.toNat ≤ 70) := by
    rcases of_decide_eq_true h with ⟨h1, h2⟩ | ⟨h1, h2⟩ | ⟨h1, h2⟩
    · exact Or.inl ⟨le_trans (by decide) (char_le_toNat h1),
        le_trans (char_le_toNat h2) (by decide)⟩
    · exact Or.inr (Or.inl ⟨le_trans (by decide) (char_le_toNat h1),
        le_trans (char_le_toNat h2) (by decide)⟩)
    · exact Or.inr (Or.inr ⟨le_trans (by decide) (char_le_toNat h1),
        le_trans (char_le_toNat h2) (by decide)⟩)
  unfold hexDigitVal
  have d1 : ∀ a b : Char, Decidable (a ≤ b ∧ True) := fun _ _ => inferInstance
  by_cases c1 : '0' ≤ c ∧ c ≤ '9'
  · rw [if_pos c1]
    have := char_le_toNat c1.2
    have : c.toNat ≤ 57 := le_trans this (by decide)
    omega
  · rw [if_neg c1]
    by_cases c2 : 'a' ≤ c ∧ c ≤ 'f'
    · rw [if_pos c2]
      have : c.toNat ≤ 102 := le_trans (char_le_toNat c2.2) (by decide)
      have : 97 ≤ c.toNat := le_trans (by decide) (char_le_toNat c2.1)
      omega
    · rw [if_neg c2]
      -- remaining case: 65 ≤ c.toNat ≤ 70 (the first two ranges are excluded)
      rcases hn with ⟨g1, g2⟩ | ⟨g1, g2⟩ | ⟨g1, g2⟩
      · exfalso
        apply c1
        constructor
        · exact Char.le_def.mpr (by exact g1)
        · exact Char.le_def.mpr (by exact g2)
      · exfalso
        apply c2
        constructor
        · exact Char.le_def.mpr (by exact g1)
        · exact Char.le_def.mpr (by exact g2)
      · omega

theorem hexVal_lt {l : List Char} (h : l.all isHexDigit = true) :
    hexVal l < 16 ^ l.length := by
  unfold hexVal
  have key : ∀ (l : List Char) (acc : Nat), l.all isHexDigit = true →
      l.foldl (fun n c => n * 16 + hexDigitVal c) acc < (acc + 1) * 16 ^ l.length := by
    intro l
    induction l with
    | nil => intro acc _; simp
    | cons c cs ih =>
      intro acc hall
      simp only [List.all_cons, Bool.and_eq_true] at hall
      have hd := hexDigitVal_lt hall.1
      have := ih (acc * 16 + hexDigitVal c) hall.2
      calc (c :: cs).foldl (fun n c => n * 16 + hexDigitVal c) acc
          = cs.foldl (fun n c => n * 16 + hexDigitVal c) (acc * 16 + hexDigitVal c) := rfl
        _ < (acc * 16 + hexDigitVal c + 1) * 16 ^ cs.length := this
        _ ≤ ((acc + 1) * 16) * 16 ^ cs.length := by
            apply Nat.mul_le_mul_right
            omega
        _ = (acc + 1) * 16 ^ (c :: cs).length := by
            rw [List.length_cons, pow_succ]
            ring
  have := key l 0 h
  simpa using this

theorem parseHextet_lt {h : List Char} {v : Nat} (he : parseHextet h = some v) : v < 65536 := by
  unfold parseHextet at he
  split at he
  · exact absurd he (by simp)
  · split at he
    · exact absurd he (by simp)
    · split at he
      · exact absurd he (by simp)
      · rename_i hall hlen _
        rw [Option.some_inj] at he
        subst he
        rw [not_not] at hall
        calc hexVal h < 16 ^ h.length := hexVal_lt hall
          _ ≤ 16 ^ 4 := Nat.pow_le_pow_right (by omega) (by omega)
          _ = 65536 := by norm_num

theorem parseOctet_le {o : List Char} {v : Nat} (he : parseOctet o = some v) : v ≤ 255 := by
  unfold parseOctet at he
  split at he; · exact absurd he (by simp)
  split at he; · exact absurd he (by simp)
  split at he; · exact absurd he (by simp)
  split at he; · exact absurd he (by simp)
  simp only at he
  split at he
  · exact absurd he (by simp)
  · rw [Option.some_inj] at he; omega

theorem v4IntFromString_lt {s : List Char} {n : Nat} (he : v4IntFromString s = some n) :
    n < 2 ^ 32 := by
  unfold v4IntFromString at he
  split at he; · exact absurd he (by simp)
  split at he
  · rename_i o1 o2 o3 o4
    split at he
    · rename_i a b c d h1 h2 h3 h4
      have b1 := parseOctet_le h1
      have b2 := parseOctet_le h2
      have b3 := parseOctet_le h3
      have b4 := parseOctet_le h4
      rw [Option.some_inj] at he
      subst he
      have : (2 : Nat) ^ 32 = 4294967296 := by norm_num
      omega
    · exact absurd he (by simp)
  · exact absurd he (by simp)

theorem mapOpt_length {f : α → Option β} :
    ∀ {l : List α} {ys : List β}, mapOpt f l = some ys → ys.length = l.length := by
  intro l
  induction l with
  | nil => intro ys h; simp only [mapOpt, Option.some_inj] at h; subst h; rfl
  | cons x xs ih =>
    intro ys h
    simp only [mapOpt] at h
    split at h
    · rename_i y ys' hy hys
      rw [Option.some_inj] at h
      subst h
      simp [ih hys]
    · exact absurd h (by simp)

theorem mapOpt_mem {f : α → Option β} :
    ∀ {l : List α} {ys : List β}, mapOpt f l = some ys →
      ∀ y ∈ ys, ∃ x ∈ l, f x = some y := by
  intro l
  induction l with
  | nil =>
    intro ys h y hy
    simp only [mapOpt, Option.some_inj] at h
    subst h
    cases hy
  | cons x xs ih =>
    intro ys h y hy
    simp only [mapOpt] at h
    split at h
    · rename_i y0 ys' hy0 hys
      rw [Option.some_inj] at h
      subst h
      rcases List.mem_cons.mp hy with rfl | hy
      · exact ⟨x, List.mem_cons_self x xs, hy0⟩
      · obtain ⟨x', hx', hfx'⟩ := ih hys y hy
        exact ⟨x', List.mem_cons_of_mem x hx', hfx'⟩
    · exact absurd h (by simp)

theorem hexFold_lt {hs : List Nat} (hb : ∀ x ∈ hs, x < 65536) :
    hs.foldl (fun acc h => acc * 65536 + h) 0 < 2 ^ (16 * hs.length) := by
  have key : ∀ (hs : List Nat) (acc : Nat), (∀ x ∈ hs, x < 65536) →
      hs.foldl (fun acc h => acc * 65536 + h) acc < (acc + 1) * 2 ^ (16 * hs.length) := by
    intro hs
    induction hs with
    | nil => intro acc _; simp
    | cons h hs ih =>
      intro acc hb
      have hd : h < 65536 := hb h (List.mem_cons_self h hs)
      have := ih (acc * 65536 + h) (fun x hx => hb x (List.mem_cons_of_mem h hx))
      calc (h :: hs).foldl (fun acc h => acc * 65536 + h) acc
          = hs.foldl (fun acc h => acc * 65536 + h) (acc * 65536 + h) := rfl
        _ < (acc * 65536 + h + 1) * 2 ^ (16 * hs.length) := this
        _ ≤ ((acc + 1) * 65536) * 2 ^ (16 * hs.length) := by
            apply Nat.mul_le_mul_right
            omega
        _ = (acc + 1) * 2 ^ (16 * (h :: hs).length) := by
            rw [List.length_cons]
            have : 16 * (hs.length + 1) = 16 * hs.length + 16 := by ring
            rw [this, pow_add]
            norm_num
            ring
  have := key hs 0 hb
  simpa using this

theorem v6Combine_lt {hiParts loParts : List (List Char)} {skipped n : Nat}
    (hn : v6Combine hiParts loParts skipped = some n)
    (hcount : hiParts.length + skipped + loParts.length ≤ 8) :
    n < 2 ^ 128 := by
  unfold v6Combine at hn
  split at hn
  · rename_i hs ls hhs hls
    rw [Option.some_inj] at hn
    subst hn
    have hlhs := mapOpt_length hhs
    have hlls := mapOpt_length hls
    have bhs : ∀ x ∈ hs, x < 65536 := fun x hx => by
      obtain ⟨p, _, hp⟩ := mapOpt_mem hhs x hx
      exact parseHextet_lt hp
    have bls : ∀ x ∈ ls, x < 65536 := fun x hx => by
      obtain ⟨p, _, hp⟩ := mapOpt_mem hls x hx
      exact parseHextet_lt hp
    have hH := hexFold_lt bhs
    have hL := hexFold_lt bls
    set A := 2 ^ (16 * hs.length) with hA
    set B := 2 ^ (16 * (skipped + ls.length)) with hB
    have hLB : 2 ^ (16 * ls.length) ≤ B := by
      apply Nat.pow_le_pow_right (by omega)
      omega
    have hmul : hs.foldl (fun acc h => acc * 65536 + h) 0 * B ≤ (A - 1) * B := by
      apply Nat.mul_le_mul_right
      omega
    have hAB : A * B ≤ 2 ^ 128 := by
      rw [hA, hB, ← pow_add]
      apply Nat.pow_le_pow_right (by omega)
      omega
    have hA1 : 1 ≤ A := Nat.one_le_two_pow
    have hB1 : 1 ≤ B := Nat.one_le_two_pow
    have hBA : B ≤ A * B := Nat.le_mul_of_pos_left B (by omega)
    calc hs.foldl (fun acc h => acc * 65536 + h) 0 * B +
          ls.foldl (fun acc h => acc * 65536 + h) 0
        < hs.foldl (fun acc h => acc * 65536 + h) 0 * B + B := by omega
      _ ≤ (A - 1) * B + B := by omega
      _ = A * B := by rw [Nat.sub_one_mul]; omega
      _ ≤ 2 ^ 128 := hAB
  · exact absurd hn (by simp)

theorem v6IntFromString_lt {s : List Char} {n : Nat} (he : v6IntFromString s = some n) :
    n < 2 ^ 128 := by
  unfold v6IntFromString at he
  split at he; · exact absurd he (by simp)
  split at he; · exact absurd he (by simp)
  split at he
  · exact absurd he (by simp)
  · rename_i parts hembed
    split at he; · exact absurd he (by simp)
    rename_i hlen9
    split at he
    · -- no '::'
      split at he
      · exact absurd he (by simp)
      · rename_i h8
        apply v6Combine_lt he
        simp only [List.length_nil]
        omega
    · -- one '::'
      rename_i i hfilter
      unfold v6SkipCase at he
      split at he; · exact absurd he (by simp)
      split at he; · exact absurd he (by simp)
      split at he; · exact absurd he (by simp)
      rename_i hover
      apply v6Combine_lt he
      have htake : (parts.take (v6HiCount parts i)).length ≤ v6HiCount parts i := by
        simp [List.length_take]
      have hdrop : (parts.drop (parts.length - v6LoCount parts i)).length ≤
          v6LoCount parts i := by
        simp [List.length_drop]
        omega
      omega
    · exact absurd he (by simp)

theorem parseIPv6Scoped_lt {s : List Char} {p : Nat × Option (List Char)}
    (he : parseIPv6Scoped s = some p) : p.1 < 2 ^ 128 := by
  unfold parseIPv6Scoped at he
  split at he
  · exact absurd he (by simp)
  · split at he
    · rcases hv : v6IntFromString (splitScope s).1 with _ | n
      · rename_i heq
        rw [heq] at hv
        rw [hv] at he
        exact absurd he (by simp)
      · rename_i heq
        rw [heq] at hv
        rw [hv] at he
        simp only [Option.map_some', Option.some_inj] at he
        subst he
        exact v6IntFromString_lt hv
    · split at he
      · exact absurd he (by simp)
      · rcases hv : v6IntFromString (splitScope s).1 with _ | n
        · rename_i heq _
          rw [heq] at hv
          rw [hv] at he
          exact absurd he (by simp)
        · rename_i heq _
          rw [heq] at hv
          rw [hv] at he
          simp only [Option.map_some', Option.some_inj] at he
          subst he
          exact v6IntFromString_lt hv

theorem parse_ip_lt {s : String} {a : PyIpAddr} (he : parse_ip s = some a) :
    a.ip < 2 ^ famBits a.fam := by
  unfold parse_ip at he
  split at he
  · rename_i m hv4
    rw [Option.some_inj] at he
    subst he
    unfold parseIPv4 at hv4
    split at hv4
    · exact absurd hv4 (by simp)
    · exact v4IntFromString_lt hv4
  · split at he
    · rename_i p hv6
      rw [Option.some_inj] at he
      subst he
      exact parseIPv6Scoped_lt hv6
    · exact absurd he (by simp)

/-! ## Claim C1 (corrected) -/

/-- **C1, counterexample.**  The claim says every pair of valid
same-family addresses with `start <= end` yields a non-empty exact
tiling of `[start, end]`.  But `ipaddress` compares IPv6 addresses
scope-aware: `IPv6Address.__eq__` also compares `_scope_id` while
`__lt__` compares only the numeric value, and
`functools.total_ordering` derives `__gt__` as "not (lt or eq)".  So
the numerically equal pair `fe80::1%a`, `fe80::1%b` — `start = end` as
address values, hence `start <= end` — makes `first > last` *true*,
`summarize_address_range` raises `ValueError`, the `except` clause in
`ip_range_to_cidrs` catches it and returns `[]`, and the record is
discarded (`error_count += 1`, no output row) instead of producing the
tiling `["fe80::1/128"]`. -/
theorem scoped_range_discarded :
    parse_ip "fe80::1%a" =
      some ⟨Fam.v6, 338288524927261089654018896841347694593, some ['a']⟩ ∧
    parse_ip "fe80::1%b" =
      some ⟨Fam.v6, 338288524927261089654018896841347694593, some ['b']⟩ ∧
    ip_range_to_cidrs "fe80::1%a" "fe80::1%b" = .ok [] ∧
    process_csv emptyTbl 90 [["fe80::1%a", "fe80::1%b", "NA", "US", "", ""]] =
      .ok { partitions := [[header]], merged := [header], rowCount := 1,
            outputCount := 0, errorCount := 1, fileCount := 1 } := by decide

/-- **C1, amended.**  For every pair of address strings `(start, end)`
that parse as valid IP addresses of the same family and satisfy
`start ≤ end` under Python's ordering — numeric value strictly smaller,
or numerically equal *and* equal as addresses (same IPv6 scope id, if
any) — `ip_range_to_cidrs(start, end)` returns a non-empty list of CIDR
blocks whose union, as an address set, equals exactly the closed
interval `[start, end]`, with no two blocks overlapping, and with
blocks in ascending address order (each block ends strictly before the
next one starts).  Numerically equal addresses with different scope ids
instead compare `start > end` and the record is discarded (see the
counterexample). -/
theorem ip_range_to_cidrs_exact (startIp endIp : String) (a b : PyIpAddr)
    (hs : parse_ip startIp = some a) (he : parse_ip endIp = some b)
    (hfam : a.fam = b.fam) (hle : pyIpGt a b = false) :
    ∃ blocks : List Cidr,
      ipRangeToCidrBlocks startIp endIp = .ok blocks ∧
      ip_range_to_cidrs startIp endIp = .ok (blocks.map cidrStr) ∧
      blocks ≠ [] ∧
      (∀ x : Nat, (∃ c ∈ blocks, cidrLo c ≤ x ∧ x ≤ cidrHi c) ↔ (a.ip ≤ x ∧ x ≤ b.ip)) ∧
      blocks.Pairwise (fun c d => cidrHi c < cidrLo d) := by
  have hab : a.ip ≤ b.ip := by
    unfold pyIpGt at hle
    by_contra hc
    exact (of_decide_eq_false hle) ⟨by omega, fun hcon => absurd hcon.1 (by omega)⟩
  have hlt : b.ip < 2 ^ famBits a.fam := by
    rw [hfam]; exact parse_ip_lt he
  have htiles := summarize_tiles a.ip b.ip (famBits a.fam) hab hlt
  refine ⟨(summarize_address_range a.ip b.ip (famBits a.fam)).map
      (fun p => ⟨a.fam, p.1, p.2⟩), ?_, ?_, ?_, ?_, ?_⟩
  · unfold ipRangeToCidrBlocks
    rw [hs, he]
    dsimp only
    rw [if_neg (by simp [hfam]), if_neg (by simp [hle])]
  · unfold ip_range_to_cidrs ipRangeToCidrBlocks
    rw [hs, he]
    dsimp only
    rw [if_neg (by simp [hfam]), if_neg (by simp [hle])]
    rfl
  · intro hnil
    exact tilesFrom_ne_nil (famBits a.fam) a.ip b.ip _ hab htiles (by
      exact List.map_eq_nil_iff.mp hnil)
  · intro x
    rw [← tilesFrom_mem_iff (famBits a.fam) _ a.ip b.ip htiles x]
    constructor
    · rintro ⟨c, hc, hlo, hhi⟩
      obtain ⟨p, hp, rfl⟩ := List.mem_map.mp hc
      exact ⟨p, hp, hlo, hhi⟩
    · rintro ⟨p, hp, hlo, hhi⟩
      exact ⟨⟨a.fam, p.1, p.2⟩, List.mem_map.mpr ⟨p, hp, rfl⟩, hlo, hhi⟩
  · rw [List.pairwise_map]
    exact tilesFrom_pairwise (famBits a.fam) _ a.ip b.ip htiles

/-- Witness for `ip_range_to_cidrs_exact` at the concrete pair
`10.0.0.3`–`10.0.0.10`. -/
theorem ip_range_to_cidrs_exact_witness :
    parse_ip "10.0.0.3" = some ⟨Fam.v4, 167772163, none⟩ ∧
    parse_ip "10.0.0.10" = some ⟨Fam.v4, 167772170, none⟩ ∧
    (⟨Fam.v4, 167772163, none⟩ : PyIpAddr).fam = (⟨Fam.v4, 167772170, none⟩ : PyIpAddr).fam ∧
    pyIpGt ⟨Fam.v4, 167772163, none⟩ ⟨Fam.v4, 167772170, none⟩ = false ∧
    (∃ blocks : List Cidr,
      ipRangeToCidrBlocks "10.0.0.3" "10.0.0.10" = .ok blocks ∧
      ip_range_to_cidrs "10.0.0.3" "10.0.0.10" = .ok (blocks.map cidrStr) ∧
      blocks ≠ [] ∧
      (∀ x : Nat, (∃ c ∈ blocks, cidrLo c ≤ x ∧ x ≤ cidrHi c) ↔
        (167772163 ≤ x ∧ x ≤ 167772170)) ∧
      blocks.Pairwise (fun c d => cidrHi c < cidrLo d)) :=
  ⟨by decide, by decide, by decide, by decide,
    ip_range_to_cidrs_exact "10.0.0.3" "10.0.0.10"
      ⟨Fam.v4, 167772163, none⟩ ⟨Fam.v4, 167772170, none⟩
      (by decide) (by decide) (by decide) (by decide)⟩

/-! ## Claim C2 (corrected) -/

/-- **C2, counterexample.**  The claim says a record whose endpoints
belong to two different address families is discarded locally
(`error_count += 1`, processing continues).  In fact
`summarize_address_range` raises `TypeError` for mixed families, and the
`except (ValueError, ipaddress.AddressValueError)` in
`ip_range_to_cidrs` does not catch `TypeError` (which is not a
`ValueError` subclass), so the exception escapes `process_csv` and the
whole run aborts: on the single mixed-family record
`1.0.0.0, ::1, NA, US` the pipeline returns no result at all instead of
an `error_count = 1` result. -/
theorem process_csv_mixed_family_aborts :
    process_csv emptyTbl 90 [["1.0.0.0", "::1", "NA", "US", "", ""]] =
      .error .typeError := by decide

/-- **C2, amended.**  For every input record whose `(start, end)` pair
is syntactically invalid — or parses into the *same* family with
`start > end` under Python's scope-aware ordering (numerically greater,
or numerically equal with different scope ids) — `ip_range_to_cidrs`
yields no blocks and the failure is handled locally: `error_count`
increases by exactly one for that record, no output row is written (the
partition state is unchanged), and the loop continues (`.ok`).
Mixed-family records are excluded: they abort the run (see the
counterexample). -/
theorem processRecord_skips_invalid (tbl : CountryTable) (maxB : Nat)
    (st : PipeState) (rec : List String)
    (hinv : parse_ip (pyStr rec[0]?) = none ∨ parse_ip (pyStr rec[1]?) = none ∨
      (∃ a b : PyIpAddr, parse_ip (pyStr rec[0]?) = some a ∧
        parse_ip (pyStr rec[1]?) = some b ∧ a.fam = b.fam ∧ pyIpGt a b = true)) :
    ipRangeToCidrBlocks (pyStr rec[0]?) (pyStr rec[1]?) = .ok [] ∧
    processRecord tbl maxB st rec =
      .ok { st with rowCount := st.rowCount + 1, errorCount := st.errorCount + 1 } := by
  have hblocks : ipRangeToCidrBlocks (pyStr rec[0]?) (pyStr rec[1]?) = .ok [] := by
    unfold ipRangeToCidrBlocks
    rcases hinv with h0 | h1 | ⟨a, b, h0, h1, hfam, hgt⟩
    · rw [h0]
    · rcases he : parse_ip (pyStr rec[0]?) with _ | a
      · rfl
      · rw [h1]
    · rw [h0, h1]
      dsimp only
      rw [if_neg (by simp [hfam]), if_pos hgt]
  refine ⟨hblocks, ?_⟩
  unfold processRecord
  rw [hblocks]

/-- Witness for `processRecord_skips_invalid`: a reversed same-family
range on the initial state. -/
theorem processRecord_skips_invalid_witness :
    (parse_ip (pyStr (["1.0.0.9", "1.0.0.5"] : List String)[0]?) = none ∨
     parse_ip (pyStr (["1.0.0.9", "1.0.0.5"] : List String)[1]?) = none ∨
     (∃ a b : PyIpAddr, parse_ip (pyStr (["1.0.0.9", "1.0.0.5"] : List String)[0]?) = some a ∧
       parse_ip (pyStr (["1.0.0.9", "1.0.0.5"] : List String)[1]?) = some b ∧
       a.fam = b.fam ∧ pyIpGt a b = true)) ∧
    (ipRangeToCidrBlocks (pyStr (["1.0.0.9", "1.0.0.5"] : List String)[0]?)
        (pyStr (["1.0.0.9", "1.0.0.5"] : List String)[1]?) = .ok [] ∧
     processRecord emptyTbl (90 * 1024 * 1024) initPipeState ["1.0.0.9", "1.0.0.5"] =
       .ok { initPipeState with
              rowCount := initPipeState.rowCount + 1
              errorCount := initPipeState.errorCount + 1 }) :=
  ⟨Or.inr (Or.inr ⟨⟨Fam.v4, 16777225, none⟩, ⟨Fam.v4, 16777221, none⟩,
     by decide, by decide, by decide, by decide⟩),
   processRecord_skips_invalid emptyTbl (90 * 1024 * 1024) initPipeState
     ["1.0.0.9", "1.0.0.5"]
     (Or.inr (Or.inr ⟨⟨Fam.v4, 16777225, none⟩, ⟨Fam.v4, 16777221, none⟩,
       by decide, by decide, by decide, by decide⟩))⟩

/-! ## Claim C5 (corrected) -/

/-- **C5, counterexample.**  The claim says a record with an absent
country field yields rows with `country_code = ''`.  In fact
`csv.DictReader` fills the missing `country` key with `restval = None`,
`row.get('country', '')` therefore returns `None` (the key *is*
present), and `None.upper()` raises `AttributeError`, aborting the whole
run: the successfully converted record `1.0.0.0, 1.0.0.255, NA` (a
three-field line) produces no output row at all. -/
theorem process_csv_missing_country_aborts :
    process_csv emptyTbl 90 [["1.0.0.0", "1.0.0.255", "NA"]] =
      .error .attributeError := by decide

/-- Once at least one partition file is open (`file_count ≥ 1`, true of
every reachable state), `writeRow` appends exactly the serialized row to
the written output, whatever rotation it triggers (a rotated-in file
never carries a header, since its number is at least 2). -/
theorem allRows_writeRow (maxB : Nat) (st : PipeState) (row : List (Option String))
    (hfc : 1 ≤ st.fileCount) :
    allRows (writeRow maxB st row) = allRows st ++ [row.map cellStr] := by
  unfold writeRow allRows openNewFile
  dsimp only
  split
  · rw [if_neg (by omega)]
    simp
  · simp

/-- `writeRow` never decreases `file_count`. -/
theorem fileCount_writeRow (maxB : Nat) (st : PipeState) (row : List (Option String)) :
    st.fileCount ≤ (writeRow maxB st row).fileCount := by
  unfold writeRow
  dsimp only
  split <;> simp

/-- Folding `writeRow` over a list appends the serialized rows in order. -/
theorem allRows_foldl (maxB : Nat) (g : Cidr → List (Option String)) :
    ∀ (l : List Cidr) (st : PipeState), 1 ≤ st.fileCount →
      allRows (l.foldl (fun s c => writeRow maxB s (g c)) st) =
        allRows st ++ l.map (fun c => (g c).map cellStr) := by
  intro l
  induction l with
  | nil => intro st _; simp
  | cons c cs ih =>
    intro st hfc
    simp only [List.foldl_cons, List.map_cons]
    rw [ih _ (le_trans hfc (fileCount_writeRow maxB st (g c))), allRows_writeRow _ _ _ hfc]
    simp

/-- Each written row bumps `output_count` by one, rotation or not. -/
theorem outputCount_writeRow (maxB : Nat) (st : PipeState) (row : List (Option String)) :
    (writeRow maxB st row).outputCount = st.outputCount + 1 := by
  unfold writeRow
  dsimp only
  split <;> rfl

theorem outputCount_foldl (maxB : Nat) (g : Cidr → List (Option String)) :
    ∀ (l : List Cidr) (st : PipeState),
      (l.foldl (fun s c => writeRow maxB s (g c)) st).outputCount =
        st.outputCount + l.length := by
  intro l
  induction l with
  | nil => intro st; rfl
  | cons c cs ih =>
    intro st
    simp only [List.foldl_cons, List.length_cons]
    rw [ih, outputCount_writeRow]
    omega

/-- **C5, amended.**  For every successfully converted record whose
`country` field is present in the CSV line, and every CIDR block it
yields, exactly one output row is constructed, with the fields exactly
as the claim describes them (`enrichedRow`): continent truncated to its
first two characters (`''` if absent or empty), country upper-cased,
country name from the table with the raw code as fallback for unmapped
codes (the final two conjuncts state the lookup/fallback behaviour of
`get_country_name`), and `stateprov`/`city` carried through verbatim
with an empty value normalized to an explicit null (`pyOrNone`).
A record whose CSV line lacks the `country` field aborts the run
instead (see the counterexample). -/
theorem processRecord_row_fields (tbl : CountryTable) (maxB : Nat)
    (st : PipeState) (rec : List String) (country : String) (blocks : List Cidr)
    (hcountry : rec[3]? = some country)
    (hblocks : ipRangeToCidrBlocks (pyStr rec[0]?) (pyStr rec[1]?) = .ok blocks)
    (hne : blocks ≠ []) (hfc : 1 ≤ st.fileCount) :
    (∃ st', processRecord tbl maxB st rec = .ok st' ∧
      st'.outputCount = st.outputCount + blocks.length ∧
      allRows st' = allRows st ++
        blocks.map (fun c => (enrichedRow tbl rec country c).map cellStr)) ∧
    (∀ code, tbl (pyUpper code) = none → get_country_name tbl code = code) ∧
    (∀ code nm, tbl (pyUpper code) = some nm → get_country_name tbl code = nm) ∧
    pyOrNone (some "") = none ∧ pyOrNone none = none ∧
    (∀ s : String, s ≠ "" → pyOrNone (some s) = some s) := by
  refine ⟨?_, ?_, ?_, rfl, rfl, ?_⟩
  · match blocks, hne with
    | b :: bs, _ =>
      have hrun : processRecord tbl maxB st rec =
          .ok ((b :: bs).foldl
            (fun s c => writeRow maxB s (enrichedRow tbl rec country c))
            { st with rowCount := st.rowCount + 1 }) := by
        unfold processRecord
        rw [hblocks]
        dsimp only
        rw [hcountry]
        rfl
      refine ⟨_, hrun, ?_, ?_⟩
      · rw [outputCount_foldl]
      · rw [allRows_foldl maxB (enrichedRow tbl rec country) (b :: bs)
          { st with rowCount := st.rowCount + 1 } hfc]
        rfl
  · intro code hnone
    unfold get_country_name
    rw [hnone]
    rfl
  · intro code nm hsome
    unfold get_country_name
    rw [hsome]
    rfl
  · intro s hs
    unfold pyOrNone
    dsimp only
    rw [if_neg hs]

/-- Witness for `processRecord_row_fields`: the two-address range
`1.0.0.0`–`1.0.0.1` with a lowercase country code and empty
`stateprov`/`city`. -/
theorem processRecord_row_fields_witness :
    ((["1.0.0.0", "1.0.0.1", "NA", "us", "", ""] : List String)[3]? = some "us") ∧
    (ipRangeToCidrBlocks (pyStr (["1.0.0.0", "1.0.0.1", "NA", "us", "", ""] : List String)[0]?)
      (pyStr (["1.0.0.0", "1.0.0.1", "NA", "us", "", ""] : List String)[1]?) =
      .ok [⟨Fam.v4, 16777216, 31⟩]) ∧
    (([⟨Fam.v4, 16777216, 31⟩] : List Cidr) ≠ []) ∧
    1 ≤ initPipeState.fileCount ∧
    ((∃ st', processRecord demoTbl (90 * 1024 * 1024) initPipeState
        ["1.0.0.0", "1.0.0.1", "NA", "us", "", ""] = .ok st' ∧
      st'.outputCount = initPipeState.outputCount + ([⟨Fam.v4, 16777216, 31⟩] : List Cidr).length ∧
      allRows st' = allRows initPipeState ++
        ([⟨Fam.v4, 16777216, 31⟩] : List Cidr).map (fun c =>
          (enrichedRow demoTbl ["1.0.0.0", "1.0.0.1", "NA", "us", "", ""] "us" c).map cellStr)) ∧
    (∀ code, demoTbl (pyUpper code) = none → get_country_name demoTbl code = code) ∧
    (∀ code nm, demoTbl (pyUpper code) = some nm → get_country_name demoTbl code = nm) ∧
    pyOrNone (some "") = none ∧ pyOrNone none = none ∧
    (∀ s : String, s ≠ "" → pyOrNone (some s) = some s)) :=
  ⟨by decide, by decide, by decide, by decide,
    processRecord_row_fields demoTbl (90 * 1024 * 1024) initPipeState
      ["1.0.0.0", "1.0.0.1", "NA", "us", "", ""] "us" [⟨Fam.v4, 16777216, 31⟩]
      (by decide) (by decide) (by decide) (by decide)⟩

/-! ## Groundwork for C3 and C4: invariants of the writing loop -/

theorem estSum_append (a b : List (List String)) : estSum (a ++ b) = estSum a + estSum b := by
  unfold estSum
  simp

theorem rowEst_eq_rowEstW (row : List (Option String)) :
    rowEst row = rowEstW (row.map cellStr) := by
  unfold rowEst rowEstW
  congr 1
  induction row with
  | nil => rfl
  | cons cell cells ih =>
    simp only [List.map_cons, List.sum_cons, ih]
    congr 1
    match cell with
    | none => rfl
    | some s =>
      by_cases hs : s = ""
      · subst hs; rfl
      · simp [cellStr, hs]

theorem slash_mem_cidrStr (c : Cidr) : '/' ∈ (cidrStr c).data := by
  unfold cidrStr
  match c with
  | ⟨.v4, b, p⟩ =>
    rw [String.data_append, String.data_append]
    simp [String.data]
  | ⟨.v6, b, p⟩ =>
    rw [String.data_append, String.data_append]
    simp [String.data]

theorem isDataRow_ne_header {r : List String} (h : isDataRow r) : r ≠ header := by
  obtain ⟨c, rest, rfl, hc⟩ := h
  intro he
  unfold header at he
  injection he with h1 _
  subst h1
  exact absurd hc (by decide)

theorem partsShape_append_row {ps : List (List (List String))} {p : List (List String)}
    {w : List String} (h : partsShape (ps ++ [p])) (hw : isDataRow w) :
    partsShape (ps ++ [p ++ [w]]) := by
  match ps with
  | [] =>
    obtain ⟨⟨d, rfl, hd⟩, _⟩ := h
    refine ⟨⟨d ++ [w], by simp, ?_⟩, by simp⟩
    intro r hr
    rcases List.mem_append.mp hr with hr | hr
    · exact hd r hr
    · rw [List.mem_singleton.mp hr]; exact hw
  | q :: qs =>
    obtain ⟨hq, hrest⟩ := h
    refine ⟨hq, ?_⟩
    intro p' hp' r hr
    rcases List.mem_append.mp hp' with hp' | hp'
    · exact hrest p' (List.mem_append.mpr (Or.inl hp')) r hr
    · rw [List.mem_singleton.mp hp'] at hr
      rcases List.mem_append.mp hr with hr | hr
      · exact hrest p (List.mem_append.mpr (Or.inr (List.mem_singleton.mpr rfl))) r hr
      · rw [List.mem_singleton.mp hr]; exact hw

theorem partsShape_append_nil {ps : List (List (List String))} (hne : ps ≠ [])
    (h : partsShape ps) : partsShape (ps ++ [[]]) := by
  match ps, hne with
  | q :: qs, _ =>
    obtain ⟨hq, hrest⟩ := h
    refine ⟨hq, ?_⟩
    intro p' hp' r hr
    rcases List.mem_append.mp hp' with hp' | hp'
    · exact hrest p' hp' r hr
    · rw [List.mem_singleton.mp hp'] at hr
      cases hr

theorem closedOk_snoc {maxB : Nat} {ps : List (List (List String))}
    {p : List (List String)} (h : closedOk maxB ps)
    (h0 : ps = [] → sizedOk maxB (p.drop 1))
    (h1 : ps ≠ [] → sizedOk maxB p) :
    closedOk maxB (ps ++ [p]) := by
  match ps with
  | [] => exact ⟨h0 rfl, by simp⟩
  | q :: qs =>
    obtain ⟨hq, hrest⟩ := h
    refine ⟨hq, ?_⟩
    intro p' hp'
    rcases List.mem_append.mp hp' with hp' | hp'
    · exact hrest p' hp'
    · rw [List.mem_singleton.mp hp']
      exact h1 (by simp)

theorem shapeInv_writeRow {maxB : Nat} {st : PipeState} {row : List (Option String)}
    (hrow : isDataRow (row.map cellStr)) (h : ShapeInv st) :
    ShapeInv (writeRow maxB st row) := by
  obtain ⟨hshape, hfc⟩ := h
  unfold writeRow openNewFile
  dsimp only
  split
  · -- rotation: the finished partition moves to `closed`, a fresh
    -- headerless file (number ≥ 2) opens
    refine ⟨?_, ?_⟩
    · rw [if_neg (by omega)]
      have h1 := partsShape_append_row hshape hrow
      have h2 := partsShape_append_nil (by simp) h1
      simpa using h2
    · simp [hfc]
  · exact ⟨partsShape_append_row hshape hrow, by simp [hfc]⟩

theorem estSum_single (w : List String) : estSum [w] = rowEstW w := by
  simp [estSum]

theorem estSum_concat (a : List (List String)) (w : List String) :
    estSum (a ++ [w]) = estSum a + rowEstW w := by
  rw [estSum_append, estSum_single]

theorem sizeInv_writeRow {maxB : Nat} {st : PipeState} {row : List (Option String)}
    (hmax : 0 < maxB) (hsh : ShapeInv st) (h : SizeInv maxB st) :
    SizeInv maxB (writeRow maxB st row) := by
  obtain ⟨heq, hlt, hcl⟩ := h
  obtain ⟨hshape, hfc⟩ := hsh
  have hW := rowEst_eq_rowEstW row
  -- the current partition is an optional header followed by its data rows
  obtain ⟨d, hd, hcd⟩ : ∃ d, st.current = (if st.closed.length = 0 then [header] else []) ++ d ∧
      curData st = d := by
    unfold curData
    rcases hc0 : st.closed with _ | ⟨q, qs⟩
    · rw [hc0] at hshape
      obtain ⟨⟨d, hd, _⟩, _⟩ := hshape
      exact ⟨d, by simp [hd], by simp [hd]⟩
    · exact ⟨st.current, by simp, by simp⟩
  rw [hcd] at heq
  have hnew : (st.current ++ [row.map cellStr]).drop
      (if st.closed.length = 0 then 1 else 0) = d ++ [row.map cellStr] := by
    rw [hd]
    split <;> simp
  unfold writeRow openNewFile
  dsimp only
  split
  · rename_i hge
    refine ⟨?_, ?_, ?_⟩
    · show (0 : Nat) = estSum (curData _)
      unfold curData
      dsimp only
      rw [if_neg (by simp), if_neg (by omega)]
      rfl
    · show (0 : Nat) < maxB
      exact hmax
    · show closedOk maxB (st.closed ++ [st.current ++ [row.map cellStr]])
      apply closedOk_snoc hcl
      · -- rotating out partition 1: its data rows exclude the header
        intro hz
        have hd1 : st.current = header :: d := by
          rw [hd, hz]
          simp
        constructor
        · show maxB ≤ estSum ((st.current ++ [row.map cellStr]).drop 1)
          rw [hd1, List.cons_append, List.drop_one, List.tail_cons, estSum_concat]
          omega
        · show estSum ((st.current ++ [row.map cellStr]).drop 1).dropLast < maxB
          rw [hd1, List.cons_append, List.drop_one, List.tail_cons, List.dropLast_concat]
          omega
      · -- rotating out a later partition: all of its rows are data rows
        intro hz
        have hd1 : st.current = d := by
          rcases hc0 : st.closed with _ | ⟨q, qs⟩
          · exact absurd hc0 hz
          · rw [hd, hc0]
            simp
        constructor
        · show maxB ≤ estSum (st.current ++ [row.map cellStr])
          rw [hd1, estSum_concat]
          omega
        · show estSum (st.current ++ [row.map cellStr]).dropLast < maxB
          rw [hd1, List.dropLast_concat]
          omega
  · rename_i hlt2
    refine ⟨?_, ?_, ?_⟩
    · show st.currentSize + rowEst row = estSum (curData _)
      unfold curData
      dsimp only
      split
      · rename_i hz
        have hd1 : st.current = header :: d := by
          rw [hd, if_pos hz]
          simp
        rw [hd1, List.cons_append, List.drop_one, List.tail_cons, estSum_concat]
        omega
      · rename_i hz
        have hd1 : st.current = d := by
          rw [hd, if_neg hz]
          simp
        rw [hd1, estSum_concat]
        omega
    · show st.currentSize + rowEst row < maxB
      omega
    · exact hcl

theorem shapeInv_foldl {maxB : Nat} {g : Cidr → List (Option String)}
    (hg : ∀ c, isDataRow ((g c).map cellStr)) :
    ∀ (l : List Cidr) (st : PipeState), ShapeInv st →
      ShapeInv (l.foldl (fun s c => writeRow maxB s (g c)) st) := by
  intro l
  induction l with
  | nil => intro st h; exact h
  | cons c cs ih => intro st h; exact ih _ (shapeInv_writeRow (hg c) h)

theorem sizeInv_foldl {maxB : Nat} {g : Cidr → List (Option String)} (hmax : 0 < maxB)
    (hg : ∀ c, isDataRow ((g c).map cellStr)) :
    ∀ (l : List Cidr) (st : PipeState), ShapeInv st → SizeInv maxB st →
      SizeInv maxB (l.foldl (fun s c => writeRow maxB s (g c)) st) := by
  intro l
  induction l with
  | nil => intro st _ h; exact h
  | cons c cs ih =>
    intro st hsh h
    exact ih _ (shapeInv_writeRow (hg c) hsh) (sizeInv_writeRow hmax hsh h)

theorem processRecord_shapeInv {tbl : CountryTable} {maxB : Nat} {st : PipeState}
    {rec : List String} {st' : PipeState}
    (h : processRecord tbl maxB st rec = .ok st') (hsh : ShapeInv st) : ShapeInv st' := by
  unfold processRecord at h
  rcases hB : ipRangeToCidrBlocks (pyStr rec[0]?) (pyStr rec[1]?) with e | blocks
  · rw [hB] at h
    exact absurd h (by simp)
  · rw [hB] at h
    rcases blocks with _ | ⟨b, bs⟩
    · dsimp only at h
      injection h with h
      subst h
      exact ⟨hsh.shape, hsh.fc⟩
    · dsimp only at h
      rcases h3 : rec[3]? with _ | country
      · rw [h3] at h
        exact absurd h (by simp)
      · rw [h3] at h
        dsimp only at h
        injection h with h
        subst h
        refine shapeInv_foldl ?_ (b :: bs) _ ⟨hsh.shape, hsh.fc⟩
        intro c
        exact ⟨_, _, rfl, slash_mem_cidrStr c⟩

theorem processRecord_sizeInv {tbl : CountryTable} {maxB : Nat} {st : PipeState}
    {rec : List String} {st' : PipeState} (hmax : 0 < maxB)
    (h : processRecord tbl maxB st rec = .ok st') (hsh : ShapeInv st)
    (hsz : SizeInv maxB st) : SizeInv maxB st' := by
  unfold processRecord at h
  rcases hB : ipRangeToCidrBlocks (pyStr rec[0]?) (pyStr rec[1]?) with e | blocks
  · rw [hB] at h
    exact absurd h (by simp)
  · rw [hB] at h
    rcases blocks with _ | ⟨b, bs⟩
    · dsimp only at h
      injection h with h
      subst h
      exact ⟨hsz.size_eq, hsz.size_lt, hsz.closed_ok⟩
    · dsimp only at h
      rcases h3 : rec[3]? with _ | country
      · rw [h3] at h
        exact absurd h (by simp)
      · rw [h3] at h
        dsimp only at h
        injection h with h
        subst h
        refine sizeInv_foldl hmax ?_ (b :: bs) _ ⟨hsh.shape, hsh.fc⟩
          ⟨hsz.size_eq, hsz.size_lt, hsz.closed_ok⟩
        intro c
        exact ⟨_, _, rfl, slash_mem_cidrStr c⟩

theorem runRecords_shapeInv {tbl : CountryTable} {maxB : Nat} :
    ∀ (recs : List (List String)) (st st' : PipeState),
      runRecords tbl maxB st recs = .ok st' → ShapeInv st → ShapeInv st' := by
  intro recs
  induction recs with
  | nil =>
    intro st st' h hsh
    unfold runRecords at h
    injection h with h
    subst h
    exact hsh
  | cons r rs ih =>
    intro st st' h hsh
    unfold runRecords at h
    rcases hp : processRecord tbl maxB st r with e | st1
    · rw [hp] at h
      exact absurd h (by simp)
    · rw [hp] at h
      exact ih st1 st' h (processRecord_shapeInv hp hsh)

theorem runRecords_sizeInv {tbl : CountryTable} {maxB : Nat} (hmax : 0 < maxB) :
    ∀ (recs : List (List String)) (st st' : PipeState),
      runRecords tbl maxB st recs = .ok st' → ShapeInv st → SizeInv maxB st →
      SizeInv maxB st' := by
  intro recs
  induction recs with
  | nil =>
    intro st st' h _ hsz
    unfold runRecords at h
    injection h with h
    subst h
    exact hsz
  | cons r rs ih =>
    intro st st' h hsh hsz
    unfold runRecords at h
    rcases hp : processRecord tbl maxB st r with e | st1
    · rw [hp] at h
      exact absurd h (by simp)
    · rw [hp] at h
      exact ih st1 st' h (processRecord_shapeInv hp hsh)
        (processRecord_sizeInv hmax hp hsh hsz)

theorem shapeInv_init : ShapeInv initPipeState := by
  refine ⟨⟨⟨[], rfl, by simp⟩, by simp⟩, rfl⟩

theorem sizeInv_init {maxB : Nat} (hmax : 0 < maxB) : SizeInv maxB initPipeState :=
  ⟨rfl, hmax, trivial⟩

/-- Destructing a successful `process_csv` run into its final loop state. -/
theorem process_csv_ok_destruct {tbl : CountryTable} {maxMB : Nat}
    {records : List (List String)} {res : PipeResult}
    (h : process_csv tbl maxMB records = .ok res) :
    ∃ st : PipeState,
      runRecords tbl (maxMB * 1024 * 1024) initPipeState
        (records.filter (fun r => r ≠ [])) = .ok st ∧
      res.partitions = st.closed ++ [st.current] ∧
      res.merged = (st.closed ++ [st.current]).flatten := by
  unfold process_csv at h
  dsimp only at h
  rcases hrun : runRecords tbl (maxMB * 1024 * 1024) initPipeState
      (records.filter (fun r => r ≠ [])) with e | st
  · rw [hrun] at h
    exact absurd h (by simp)
  · rw [hrun] at h
    dsimp only at h
    injection h with h
    subst h
    exact ⟨st, rfl, rfl, rfl⟩

/-- `closedOk` read off at an index. -/
theorem closedOk_index {maxB : Nat} :
    ∀ {ps : List (List (List String))}, closedOk maxB ps →
      ∀ (i : Nat) (p : List (List String)), ps[i]? = some p →
        sizedOk maxB (dataRowsAt i p) := by
  intro ps
  match ps with
  | [] =>
    intro _ i p hp
    simp at hp
  | q :: qs =>
    intro h i p hp
    obtain ⟨hq, hrest⟩ := h
    match i with
    | 0 =>
      simp only [List.getElem?_cons_zero, Option.some_inj] at hp
      subst hp
      unfold dataRowsAt
      rw [if_pos rfl]
      exact hq
    | j + 1 =>
      simp only [List.getElem?_cons_succ] at hp
      have hmem : p ∈ qs := List.getElem?_mem hp
      unfold dataRowsAt
      rw [if_neg (by omega)]
      exact hrest p hmem

/-! ## Claim C3 -/

/-- **C3.**  For every completed run with a positive configured maximum,
every generated partition except the last was closed exactly when its
accumulated estimated size first reached or exceeded
`max_size_mb * 1024 * 1024`: its data rows' estimates sum to at least
the threshold, while without the final row (the size check happens only
between whole rows, each written atomically to one partition) they
still sum to strictly less — so a partition below the threshold is
never closed before end of input. -/
theorem partition_closed_at_threshold (tbl : CountryTable) (maxMB : Nat)
    (records : List (List String)) (res : PipeResult) (hpos : 0 < maxMB)
    (h : process_csv tbl maxMB records = .ok res) :
    ∀ (i : Nat) (p : List (List String)), res.partitions[i]? = some p →
      i + 1 < res.partitions.length →
      maxMB * 1024 * 1024 ≤ estSum (dataRowsAt i p) ∧
      estSum (dataRowsAt i p).dropLast < maxMB * 1024 * 1024 := by
  obtain ⟨st, hrun, hparts, _⟩ := process_csv_ok_destruct h
  have hmax : 0 < maxMB * 1024 * 1024 := by positivity
  have hsize := runRecords_sizeInv hmax _ _ _ hrun shapeInv_init (sizeInv_init hmax)
  intro i p hp hi
  rw [hparts] at hp hi
  simp only [List.length_append, List.length_cons, List.length_nil] at hi
  have hil : i < st.closed.length := by omega
  rw [List.getElem?_append, if_pos hil] at hp
  exact closedOk_index hsize.closed_ok i p hp

/-- Witness for `partition_closed_at_threshold` on a completed concrete
run (the conclusion quantifies over the non-final partitions of that
run). -/
theorem partition_closed_at_threshold_witness :
    (0 < 90) ∧
    (process_csv demoTbl 90 [["1.0.0.5", "1.0.0.9", "OC", "AU", "Queensland", "Brisbane"]] =
      .ok demoRunResult) ∧
    (∀ (i : Nat) (p : List (List String)), demoRunResult.partitions[i]? = some p →
      i + 1 < demoRunResult.partitions.length →
      90 * 1024 * 1024 ≤ estSum (dataRowsAt i p) ∧
      estSum (dataRowsAt i p).dropLast < 90 * 1024 * 1024) :=
  ⟨by decide, by decide,
    partition_closed_at_threshold demoTbl 90
      [["1.0.0.5", "1.0.0.9", "OC", "AU", "Queensland", "Brisbane"]] demoRunResult
      (by decide) (by decide)⟩

/-! ## Claim C4 -/

/-- **C4.**  For every completed run, the header row is written exactly
once, at the start of partition 1 only: partition 1 is
`header :: d0` with every row of `d0` different from the header, every
partition after the first holds rows different from the header, and the
merged output is exactly one header row followed by the data rows of
all partitions concatenated in ascending partition-index order — so its
data-row count is the sum of the partitions' data-row counts. -/
theorem header_once_and_merge (tbl : CountryTable) (maxMB : Nat)
    (records : List (List String)) (res : PipeResult)
    (h : process_csv tbl maxMB records = .ok res) :
    ∃ d0 : List (List String),
      res.partitions.head? = some (header :: d0) ∧
      (∀ r ∈ d0, r ≠ header) ∧
      (∀ p ∈ res.partitions.tail, ∀ r ∈ p, r ≠ header) ∧
      res.merged = header :: (d0 ++ res.partitions.tail.flatten) ∧
      res.merged.length = 1 + d0.length + (res.partitions.tail.map List.length).sum := by
  obtain ⟨st, hrun, hparts, hmerged⟩ := process_csv_ok_destruct h
  have hsh := runRecords_shapeInv _ _ _ hrun shapeInv_init
  rcases hc0 : st.closed with _ | ⟨q, qs⟩
  · have hshape := hsh.shape
    rw [hc0] at hshape hparts hmerged
    obtain ⟨⟨d, hd, hdata⟩, _⟩ := hshape
    refine ⟨d, ?_, ?_, ?_, ?_, ?_⟩
    · rw [hparts, hd]
      rfl
    · intro r hr
      exact isDataRow_ne_header (hdata r hr)
    · intro p hp
      rw [hparts] at hp
      simp at hp
    · rw [hmerged, hparts, hd]
      simp
    · rw [hmerged, hparts, hd]
      simp
      omega
  · have hshape := hsh.shape
    rw [hc0] at hshape hparts hmerged
    rw [List.cons_append] at hshape hparts hmerged
    obtain ⟨⟨d, hd, hdata⟩, hrest⟩ := hshape
    refine ⟨d, ?_, ?_, ?_, ?_, ?_⟩
    · rw [hparts, hd]
      rfl
    · intro r hr
      exact isDataRow_ne_header (hdata r hr)
    · intro p hp r hr
      rw [hparts] at hp
      exact isDataRow_ne_header (hrest p hp r hr)
    · rw [hmerged, hparts, hd]
      simp
    · rw [hmerged, hparts, hd]
      simp [List.length_flatten]
      omega

/-- Witness for `header_once_and_merge` on a completed concrete run. -/
theorem header_once_and_merge_witness :
    (process_csv emptyTbl 0 [["1.0.0.1", "1.0.0.2", "NA", "US", "", ""]] =
      .ok splitRunResult) ∧
    (∃ d0 : List (List String),
      splitRunResult.partitions.head? = some (header :: d0) ∧
      (∀ r ∈ d0, r ≠ header) ∧
      (∀ p ∈ splitRunResult.partitions.tail, ∀ r ∈ p, r ≠ header) ∧
      splitRunResult.merged = header :: (d0 ++ splitRunResult.partitions.tail.flatten) ∧
      splitRunResult.merged.length =
        1 + d0.length + (splitRunResult.partitions.tail.map List.length).sum) :=
  ⟨by decide,
    header_once_and_merge emptyTbl 0 [["1.0.0.1", "1.0.0.2", "NA", "US", "", ""]]
      splitRunResult (by decide)⟩

/-! ## Claim C6 -/

/-- **C6.**  The pipeline is deterministic: `process_csv` is a pure
function of the country table, the configured maximum partition size and
the input records, so two runs on identical inputs with identical
configuration produce identical partitions and identical merged output
(no clock, randomness, or environment enters the embedded computation). -/
theorem process_csv_deterministic (tbl1 tbl2 : CountryTable) (m1 m2 : Nat)
    (r1 r2 : List (List String)) (htbl : tbl1 = tbl2) (hm : m1 = m2) (hr : r1 = r2) :
    process_csv tbl1 m1 r1 = process_csv tbl2 m2 r2 := by
  subst htbl hm hr
  rfl

/-- Witness for `process_csv_deterministic` on a concrete run. -/
theorem process_csv_deterministic_witness :
    demoTbl = demoTbl ∧ (90 : Nat) = 90 ∧
    ([["1.0.0.5", "1.0.0.9", "OC", "AU", "Queensland", "Brisbane"]] :
      List (List String)) = [["1.0.0.5", "1.0.0.9", "OC", "AU", "Queensland", "Brisbane"]] ∧
    process_csv demoTbl 90 [["1.0.0.5", "1.0.0.9", "OC", "AU", "Queensland", "Brisbane"]] =
      process_csv demoTbl 90 [["1.0.0.5", "1.0.0.9", "OC", "AU", "Queensland", "Brisbane"]] :=
  ⟨rfl, rfl, rfl,
    process_csv_deterministic demoTbl demoTbl 90 90
      [["1.0.0.5", "1.0.0.9", "OC", "AU", "Queensland", "Brisbane"]]
      [["1.0.0.5", "1.0.0.9", "OC", "AU", "Queensland", "Brisbane"]] rfl rfl rfl⟩

/-! ## Claim C7 -/

/-- **C7.**  On the concrete range `1.0.0.5`–`1.0.0.9`,
`ip_range_to_cidrs` returns exactly `1.0.0.5/32, 1.0.0.6/31, 1.0.0.8/31`
in that order; the blocks' address spans are exactly
`[16777221, 16777221]`, `[16777222, 16777223]`, `[16777224, 16777225]`
(together the 5 addresses of the range); and the pipeline emits each
block as a separate output row sharing the record's descriptive
fields. -/
theorem conversion_of_1_0_0_5_to_1_0_0_9 :
    ip_range_to_cidrs "1.0.0.5" "1.0.0.9" =
      .ok ["1.0.0.5/32", "1.0.0.6/31", "1.0.0.8/31"] ∧
    ipRangeToCidrBlocks "1.0.0.5" "1.0.0.9" =
      .ok [⟨Fam.v4, 16777221, 32⟩, ⟨Fam.v4, 16777222, 31⟩, ⟨Fam.v4, 16777224, 31⟩] ∧
    ([⟨Fam.v4, 16777221, 32⟩, ⟨Fam.v4, 16777222, 31⟩, ⟨Fam.v4, 16777224, 31⟩] :
        List Cidr).map (fun c => (cidrLo c, cidrHi c)) =
      [(16777221, 16777221), (16777222, 16777223), (16777224, 16777225)] ∧
    process_csv demoTbl 90 [["1.0.0.5", "1.0.0.9", "OC", "AU", "Queensland", "Brisbane"]] =
      .ok demoRunResult ∧
    demoRunResult.merged =
      [header, demoRow "1.0.0.5/32", demoRow "1.0.0.6/31", demoRow "1.0.0.8/31"] := by
  refine ⟨by decide, by decide, by decide, by decide, by decide⟩

/-! ## Claim C9 -/

/-- **C9.**  The partition-rotation check runs after each individual
output row, so the rows derived from one input record can land in two
consecutive partitions: with `max_size_mb = 0` the single record
`1.0.0.1`–`1.0.0.2` (`row_count = 1`) yields two CIDR rows, the first
ending up as the last row of partition 1 and the second in partition 2
— per-record atomicity is not preserved, only per-row atomicity. -/
theorem record_rows_split_across_partitions :
    process_csv emptyTbl 0 [["1.0.0.1", "1.0.0.2", "NA", "US", "", ""]] =
      .ok splitRunResult ∧
    splitRunResult.rowCount = 1 ∧
    splitRunResult.partitions =
      [[header, splitRow "1.0.0.1/32"], [splitRow "1.0.0.2/32"], []] := by
  refine ⟨by decide, by decide, by decide⟩

/-! ## Claim C8 -/

theorem dictGet_dictSet_self (d : List (String × Json)) (k : String) (v : Json) :
    dictGet (dictSet d k v) k = some v := by
  induction d with
  | nil => simp [dictSet, dictGet]
  | cons kv rest ih =>
    unfold dictSet
    by_cases hk : kv.1 = k
    · rw [if_pos hk]
      unfold dictGet
      rw [if_pos hk]
    · rw [if_neg hk]
      unfold dictGet
      rw [if_neg hk]
      exact ih

theorem dictGet_dictSet_other (d : List (String × Json)) (k k' : String) (v : Json)
    (hk : k' ≠ k) : dictGet (dictSet d k v) k' = dictGet d k' := by
  induction d with
  | nil =>
    unfold dictSet dictGet
    rw [if_neg (by intro h; exact hk h.symm)]
    rfl
  | cons kv rest ih =>
    unfold dictSet
    by_cases hkk : kv.1 = k
    · rw [if_pos hkk]
      unfold dictGet
      by_cases hkv : kv.1 = k'
      · exact absurd (hkv.symm.trans hkk) hk
      · rw [if_neg hkv, if_neg hkv]
    · rw [if_neg hkk]
      unfold dictGet
      by_cases hkv : kv.1 = k'
      · rw [if_pos hkv, if_pos hkv]
      · rw [if_neg hkv, if_neg hkv]
        exact ih

/-- **C8.**  For every per-article `index.json` document whose
`applied_actions` value is a JSON list `l` (an absent key counts as the
empty list, exactly as `data.get("applied_actions", [])` does): if `l`
contains `"add_toc"`, the script rewrites the file with every
`"add_toc"` entry removed from `applied_actions`, with `last_pipeline`
set to `"generate"`, and with every other field unchanged; if `l` does
not contain `"add_toc"`, the file is not rewritten at all. -/
theorem resetAddToc_spec (d : List (String × Json)) (l : List Json)
    (hl : (dictGet d "applied_actions").getD (Json.arr []) = Json.arr l) :
    (l.any isAddToc = true →
      ∃ d', resetAddToc d = .ok (some d') ∧
        dictGet d' "applied_actions" =
          some (Json.arr (l.filter (fun a => ¬ isAddToc a))) ∧
        (∀ j ∈ l.filter (fun a => ¬ isAddToc a), j ≠ Json.str "add_toc") ∧
        dictGet d' "last_pipeline" = some (Json.str "generate") ∧
        (∀ k, k ≠ "applied_actions" → k ≠ "last_pipeline" →
          dictGet d' k = dictGet d k)) ∧
    (l.any isAddToc = false → resetAddToc d = .ok none) := by
  constructor
  · intro hany
    refine ⟨dictSet (dictSet d "applied_actions"
        (Json.arr (l.filter (fun a => ¬ isAddToc a)))) "last_pipeline"
        (Json.str "generate"), ?_, ?_, ?_, ?_, ?_⟩
    · unfold resetAddToc
      rw [hl]
      dsimp only [pyContainsAddToc]
      rw [hany]
      dsimp only [pyFilterAddToc]
    · rw [dictGet_dictSet_other _ _ _ _ (by decide), dictGet_dictSet_self]
    · intro j hj
      rw [List.mem_filter] at hj
      intro hcontra
      subst hcontra
      exact absurd hj.2 (by simp [isAddToc])
    · rw [dictGet_dictSet_self]
    · intro k hk1 hk2
      rw [dictGet_dictSet_other _ _ _ _ hk2, dictGet_dictSet_other _ _ _ _ hk1]
  · intro hany
    unfold resetAddToc
    rw [hl]
    dsimp only [pyContainsAddToc]
    rw [hany]

/-- Witness for `resetAddToc_spec` on a concrete three-field document. -/
theorem resetAddToc_spec_witness :
    ((dictGet [("title", Json.str "t"),
        ("applied_actions", Json.arr [Json.str "add_toc", Json.str "x"]),
        ("last_pipeline", Json.str "enhance")] "applied_actions").getD (Json.arr []) =
      Json.arr [Json.str "add_toc", Json.str "x"]) ∧
    (([Json.str "add_toc", Json.str "x"] : List Json).any isAddToc = true →
      ∃ d', resetAddToc [("title", Json.str "t"),
          ("applied_actions", Json.arr [Json.str "add_toc", Json.str "x"]),
          ("last_pipeline", Json.str "enhance")] = .ok (some d') ∧
        dictGet d' "applied_actions" =
          some (Json.arr (([Json.str "add_toc", Json.str "x"] : List Json).filter
            (fun a => ¬ isAddToc a))) ∧
        (∀ j ∈ ([Json.str "add_toc", Json.str "x"] : List Json).filter
            (fun a => ¬ isAddToc a), j ≠ Json.str "add_toc") ∧
        dictGet d' "last_pipeline" = some (Json.str "generate") ∧
        (∀ k, k ≠ "applied_actions" → k ≠ "last_pipeline" →
          dictGet d' k = dictGet [("title", Json.str "t"),
            ("applied_actions", Json.arr [Json.str "add_toc", Json.str "x"]),
            ("last_pipeline", Json.str "enhance")] k)) ∧
    (([Json.str "add_toc", Json.str "x"] : List Json).any isAddToc = false →
      resetAddToc [("title", Json.str "t"),
        ("applied_actions", Json.arr [Json.str "add_toc", Json.str "x"]),
        ("last_pipeline", Json.str "enhance")] = .ok none) :=
  ⟨rfl,
    (resetAddToc_spec [("title", Json.str "t"),
      ("applied_actions", Json.arr [Json.str "add_toc", Json.str "x"]),
      ("last_pipeline", Json.str "enhance")] [Json.str "add_toc", Json.str "x"] rfl).1,
    (resetAddToc_spec [("title", Json.str "t"),
      ("applied_actions", Json.arr [Json.str "add_toc", Json.str "x"]),
      ("last_pipeline", Json.str "enhance")] [Json.str "add_toc", Json.str "x"] rfl).2⟩

/-! ## Claim C10 -/

theorem strDictGet_strDictSet_cases {m : List (String × String)} {k v fn nm : String}
    (h : strDictGet (strDictSet m k v) fn = some nm) :
    nm = v ∨ strDictGet m fn = some nm := by
  induction m with
  | nil =>
    unfold strDictSet strDictGet at h
    split at h
    · exact Or.inl (Option.some_inj.mp h).symm
    · exact absurd h (by simp [strDictGet])
  | cons kv rest ih =>
    unfold strDictSet at h
    split at h
    · unfold strDictGet at h ⊢
      split at h
      · exact Or.inl (Option.some_inj.mp h).symm
      · rename_i hkk hkv
        rw [if_neg hkv]
        exact Or.inr h
    · unfold strDictGet at h ⊢
      split at h
      · rename_i hkv
        rw [if_pos hkv]
        exact Or.inr h
      · rename_i hkk hkv
        rw [if_neg hkv]
        exact ih h

/-- Entries of the `bot_map` fold satisfy any property `P` that holds of
the seed map's entries and of every truthy bot's name. -/
theorem botMapAux_values (P : String → Prop) (fn : String) :
    ∀ (bs : List Bot) (m : List (String × String)),
      (∀ nm', strDictGet m fn = some nm' → P nm') →
      (∀ b ∈ bs, truthyUrl b.ip_ranges_url = true → P b.name) →
      ∀ nm, strDictGet (bs.foldl (fun m b =>
        if truthyUrl b.ip_ranges_url then strDictSet m (botFilename b) b.name else m) m)
        fn = some nm → P nm := by
  intro bs
  induction bs with
  | nil =>
    intro m hm _ nm h
    exact hm nm h
  | cons b rest ih =>
    intro m hm hbs nm h
    simp only [List.foldl_cons] at h
    refine ih _ ?_ ?_ nm h
    · intro nm' h'
      by_cases htr : truthyUrl b.ip_ranges_url
      · rw [if_pos htr] at h'
        rcases strDictGet_strDictSet_cases h' with rfl | h''
        · exact hbs b (List.mem_cons_self b rest) htr
        · exact hm nm' h''
      · rw [if_neg htr] at h'
        exact hm nm' h'
    · intro b' hb'
      exact hbs b' (List.mem_cons_of_mem b hb')

/-- Every name in `bot_map` is the name of a configured bot with a
truthy `ip_ranges_url`. -/
theorem botMap_values {bots : List Bot} {fn nm : String}
    (h : strDictGet (botMap bots) fn = some nm) :
    ∃ b ∈ bots, truthyUrl b.ip_ranges_url = true ∧ nm = b.name := by
  unfold botMap at h
  exact botMapAux_values (fun nm => ∃ b ∈ bots, truthyUrl b.ip_ranges_url = true ∧ nm = b.name)
    fn bots []
    (by intro nm' h'; exact absurd h' (by simp [strDictGet]))
    (by intro b hb ht; exact ⟨b, hb, ht, rfl⟩) nm h

/-- Per-file step preserves the row property. -/
theorem processBotFile_rows {bots : List Bot} {rows rows' : List BotRow}
    {f : String × Except Unit Json}
    (h : processBotFile (botMap bots) rows f = .ok rows')
    (hrows : ∀ r ∈ rows, validate_cidr r.network = true ∧
      ∃ b ∈ bots, truthyUrl b.ip_ranges_url = true ∧ r.bot_name = b.name) :
    ∀ r ∈ rows', validate_cidr r.network = true ∧
      ∃ b ∈ bots, truthyUrl b.ip_ranges_url = true ∧ r.bot_name = b.name := by
  unfold processBotFile at h
  rcases hbm : strDictGet (botMap bots) f.1 with _ | botName
  · rw [hbm] at h
    injection h with h
    subst h
    exact hrows
  · rw [hbm] at h
    dsimp only at h
    by_cases hbn : botName = ""
    · rw [if_pos hbn] at h
      injection h with h
      subst h
      exact hrows
    · rw [if_neg hbn] at h
      rcases hload : f.2 with u | data
      · rw [hload] at h
        dsimp only at h
        injection h with h
        subst h
        exact hrows
      · rw [hload] at h
        dsimp only at h
        rcases hpr : parse_ip_ranges data with e | ranges
        · rw [hpr] at h
          exact absurd h (by simp)
        · rw [hpr] at h
          dsimp only at h
          injection h with h
          subst h
          intro r hr
          rcases List.mem_append.mp hr with hr | hr
          · exact hrows r hr
          · obtain ⟨x, hx, rfl⟩ := List.mem_map.mp hr
            rw [List.mem_filter] at hx
            exact ⟨hx.2, botMap_values hbm⟩

theorem runBotFiles_rows {bots : List Bot} :
    ∀ (files : List (String × Except Unit Json)) (rows0 rows : List BotRow),
      runBotFiles (botMap bots) rows0 files = .ok rows →
      (∀ r ∈ rows0, validate_cidr r.network = true ∧
        ∃ b ∈ bots, truthyUrl b.ip_ranges_url = true ∧ r.bot_name = b.name) →
      ∀ r ∈ rows, validate_cidr r.network = true ∧
        ∃ b ∈ bots, truthyUrl b.ip_ranges_url = true ∧ r.bot_name = b.name := by
  intro files
  induction files with
  | nil =>
    intro rows0 rows h h0
    unfold runBotFiles at h
    injection h with h
    subst h
    exact h0
  | cons f fs ih =>
    intro rows0 rows h h0
    unfold runBotFiles at h
    rcases hf : processBotFile (botMap bots) rows0 f with e | rows1
    · rw [hf] at h
      exact absurd h (by simp)
    · rw [hf] at h
      exact ih rows1 rows h (processBotFile_rows hf h0)

/-- A file whose step never changes the accumulator can be removed from
the file list without changing the run's outcome. -/
theorem runBotFiles_skip {bmap : List (String × String)}
    {f : String × Except Unit Json}
    (hskip : ∀ rows, processBotFile bmap rows f = .ok rows) :
    ∀ (fs1 fs2 : List (String × Except Unit Json)) (rows0 : List BotRow),
      runBotFiles bmap rows0 (fs1 ++ f :: fs2) = runBotFiles bmap rows0 (fs1 ++ fs2) := by
  intro fs1
  induction fs1 with
  | nil =>
    intro fs2 rows0
    simp only [List.nil_append]
    simp only [runBotFiles]
    rw [hskip rows0]
  | cons g gs ih =>
    intro fs2 rows0
    simp only [List.cons_append]
    simp only [runBotFiles]
    rcases hg : processBotFile bmap rows0 g with e | rows1
    · rfl
    · dsimp only
      exact ih fs2 rows1

/-- **C10.**  For every completed run of the bot IP-range converter:
every row written to `crawler-ips.csv` has a `network` that passes
`validate_cidr` (entries failing CIDR validation are filtered out
before writing) and a `bot_name` that is the name of a configured bot
with an `ip_ranges_url`; a JSON file whose name maps to no configured
bot contributes no rows (removing it changes nothing); and a file whose
load fails contributes no rows but does not abort the processing of the
remaining files (removing it changes nothing either). -/
theorem convert_ips_rows (bots : List Bot) (files : List (String × Except Unit Json))
    (rows : List BotRow) (h : convertIpsMain bots files = .ok rows) :
    (∀ r ∈ rows, validate_cidr r.network = true ∧
      ∃ b ∈ bots, truthyUrl b.ip_ranges_url = true ∧ r.bot_name = b.name) ∧
    (∀ (fn : String) (res : Except Unit Json) fs1 fs2,
      strDictGet (botMap bots) fn = none →
      convertIpsMain bots (fs1 ++ (fn, res) :: fs2) = convertIpsMain bots (fs1 ++ fs2)) ∧
    (∀ (fn : String) (u : Unit) fs1 fs2,
      convertIpsMain bots (fs1 ++ (fn, Except.error u) :: fs2) =
        convertIpsMain bots (fs1 ++ fs2)) := by
  refine ⟨?_, ?_, ?_⟩
  · exact runBotFiles_rows files [] rows h (by intro r hr; cases hr)
  · intro fn res fs1 fs2 hnone
    apply runBotFiles_skip _ fs1 fs2 []
    intro rows0
    unfold processBotFile
    dsimp only
    rw [hnone]
  · intro fn u fs1 fs2
    apply runBotFiles_skip _ fs1 fs2 []
    intro rows0
    unfold processBotFile
    dsimp only
    rcases hbm : strDictGet (botMap bots) fn with _ | botName
    · rfl
    · dsimp only
      split
      · rfl
      · rfl

/-- Witness for `convert_ips_rows` on a one-bot, one-file run. -/
theorem convert_ips_rows_witness :
    (convertIpsMain [⟨"GPT Bot", some "http://x"⟩]
      [("gpt-bot.json", Except.ok (Json.obj [("prefixes",
         Json.arr [Json.str "1.2.3.0/24", Json.str "not-a-cidr"])]))] =
      .ok [⟨Json.str "1.2.3.0/24", "GPT Bot"⟩]) ∧
    ((∀ r ∈ ([⟨Json.str "1.2.3.0/24", "GPT Bot"⟩] : List BotRow),
      validate_cidr r.network = true ∧
      ∃ b ∈ [(⟨"GPT Bot", some "http://x"⟩ : Bot)],
        truthyUrl b.ip_ranges_url = true ∧ r.bot_name = b.name) ∧
    (∀ (fn : String) (res : Except Unit Json) fs1 fs2,
      strDictGet (botMap [⟨"GPT Bot", some "http://x"⟩]) fn = none →
      convertIpsMain [⟨"GPT Bot", some "http://x"⟩] (fs1 ++ (fn, res) :: fs2) =
        convertIpsMain [⟨"GPT Bot", some "http://x"⟩] (fs1 ++ fs2)) ∧
    (∀ (fn : String) (u : Unit) fs1 fs2,
      convertIpsMain [⟨"GPT Bot", some "http://x"⟩] (fs1 ++ (fn, Except.error u) :: fs2) =
        convertIpsMain [⟨"GPT Bot", some "http://x"⟩] (fs1 ++ fs2))) :=
  ⟨rfl,
    convert_ips_rows [⟨"GPT Bot", some "http://x"⟩]
      [("gpt-bot.json", Except.ok (Json.obj [("prefixes",
         Json.arr [Json.str "1.2.3.0/24", Json.str "not-a-cidr"])]))]
      [⟨Json.str "1.2.3.0/24", "GPT Bot"⟩] rfl⟩

end Aicw


